import Mathlib

/-!
# Verification of the xlsxDiff spreadsheet comparison engine

This file is a shallow embedding, in Lean 4, of the core algorithms of
`xlsxDiff.py` (https://github.com/rafal-dot/xlsxDiff), an Excel comparison
tool that aligns the rows/columns of two spreadsheets, classifies every
cell as unchanged / added / removed / modified, and renders a character
level diff of modified cells.

The tool delegates all sequence alignment to Python's
`difflib.SequenceMatcher` (called as `SequenceMatcher(None, a, b)`, i.e.
with `isjunk = None` and the default `autojunk = True`).  The relevant
parts of `difflib` (`__chain_b`, `find_longest_match`,
`get_matching_blocks`, `get_opcodes`) are therefore embedded here as well,
following the CPython implementation:

* `b2j` maps an element to the ascending list of its indices in `b`,
  with the "popular element" purge applied for `len(b) >= 200`
  (`autojunk`).  Since `isjunk` is `None`, the junk set `bjunk` is empty,
  so the two junk-extension `while` loops of `find_longest_match` never
  fire and are omitted.
* `find_longest_match` is the dictionary-based longest-matching-chain
  scan followed by the two (non-junk) extension loops.  The Python code
  computes `besti = i-k+1` on `int`; here `i + 1 - k` is used on `Nat`,
  which agrees because the loop invariant (proved below, `J2Ok`) gives
  `k ≤ i + 1` for every chain length considered.  Likewise Python's
  `j2len.get(j-1, 0)` with `j = 0` looks up key `-1`, which is never
  present; here this is the explicit `if j = 0 then 0` case.
* `get_matching_blocks` in CPython keeps a LIFO work queue of rectangles,
  collects the blocks it finds, sorts them, and merges adjacent blocks.
  Every block found inside the left sub-rectangle `(alo, i, blo, j)` is
  componentwise strictly below `(i, j, k)`, and every block found inside
  the right sub-rectangle is strictly above, so sorting the collected
  blocks reproduces exactly the in-order traversal of the recursion;
  `matchingBlocksAux` below computes that in-order traversal directly,
  and `mergeBlocks` is the adjacency-merging pass, followed by the
  `(la, lb, 0)` sentinel.
* `get_opcodes` walks the matching blocks emitting
  replace/delete/insert/equal opcodes.

On top of that the file embeds, from `src/xlsxDiff.py`: `get_format`,
`compare_cell`, `compare_2_lists_and_give_indexes_with_enumerator`,
`column_ranges`, `row_ranges`, `compare_tab`, `clone_tab`, the
`tab_names_dict` construction and the main sheet loop.  Worksheets are
modelled as abstract grids (`Ws`): `cell r c` is the optional string
content of the 1-based cell `(r, c)`, mirroring the `openpyxl` accessor
used by the tool (`str()` of cell values is pre-applied, i.e. values are
modelled as the strings the tool compares).  Output writes are modelled
as a list of `WriteAct` actions; `xlsxwriter` format objects are
modelled by the enumeration `Fmt` naming the ten formats the script
creates.
-/

namespace XlsxDiff

/-- Python half-open range `range(i, j)` over naturals (empty when `j ≤ i`). -/
def pyRange (i j : Nat) : List Nat := List.range' i (j - i)

/-- Python slice `l[i:j]` (with the usual clipping semantics). -/
def slice (l : List α) (i j : Nat) : List α := (l.drop i).take (j - i)

lemma pyRange_len (i j : Nat) : (pyRange i j).length = j - i := by
  simp [pyRange]

lemma pyRange_nil (i j : Nat) (h : j ≤ i) : pyRange i j = [] := by
  simp [pyRange, Nat.sub_eq_zero_of_le h]

lemma pyRange_cons (i j : Nat) (h : i < j) : pyRange i j = i :: pyRange (i + 1) j := by
  unfold pyRange
  have h1 : j - i = (j - (i + 1)) + 1 := by omega
  rw [h1, List.range'_succ]

lemma pyRange_append {i m j : Nat} (h1 : i ≤ m) (h2 : m ≤ j) :
    pyRange i m ++ pyRange m j = pyRange i j := by
  unfold pyRange
  have h3 : i + 1 * (m - i) = m := by omega
  have h4 : j - i = (j - m) + (m - i) := by omega
  rw [h4, ← List.range'_append, h3]

lemma slice_nil (l : List α) {i j : Nat} (h : j ≤ i) : slice l i j = [] := by
  simp [slice, Nat.sub_eq_zero_of_le h]

lemma slice_append (l : List α) {i m j : Nat} (h1 : i ≤ m) (h2 : m ≤ j) :
    slice l i m ++ slice l m j = slice l i j := by
  unfold slice
  have hd : l.drop m = (l.drop i).drop (m - i) := by
    rw [List.drop_drop]; congr 1; omega
  have ha : j - i = (m - i) + (j - m) := by omega
  rw [hd, ha, List.take_add]

lemma slice_drop (l : List α) {i m : Nat} (h : i ≤ m) :
    slice l i m ++ l.drop m = l.drop i := by
  unfold slice
  have hd : l.drop m = (l.drop i).drop (m - i) := by
    rw [List.drop_drop]; congr 1; omega
  rw [hd, List.take_append_drop]

lemma slice_one (l : List α) {i : Nat} (h : i < l.length) :
    slice l i (i + 1) = [l.get ⟨i, h⟩] := by
  unfold slice
  have h1 : i + 1 - i = 1 := by omega
  rw [h1, List.drop_eq_getElem_cons h, List.take_succ_cons, List.take_zero]
  simp

lemma slice_zero_drop (l : List α) {i j : Nat} (hj : l.length ≤ j) :
    slice l i j = l.drop i := by
  unfold slice
  apply List.take_of_length_le
  simp
  omega

/-! ## difflib: b2j with autojunk -/

variable {α : Type} [DecidableEq α]

/-- Ascending list of positions of `x` in `b` (the entry `b2j[x]` before the
popular-element purge). -/
def occIdx (b : List α) (x : α) : List Nat :=
  (List.range b.length).filter (fun j => b.get? j = some x)

/-- `b2j` lookup with default `[]`, including the `autojunk` purge of popular
elements for `len(b) ≥ 200` (an element is popular when it occurs more than
`len(b) // 100 + 1` times).  `isjunk` is `None` in every call the tool makes,
so no junk purge applies. -/
def b2j (b : List α) (x : α) : List Nat :=
  if 200 ≤ b.length ∧ b.length / 100 + 1 < (occIdx b x).length then []
  else occIdx b x

lemma occIdx_mem {b : List α} {x : α} {j : Nat} (h : j ∈ occIdx b x) :
    b.get? j = some x := by
  unfold occIdx at h
  have := List.of_mem_filter h
  simpa using this

lemma b2j_mem {b : List α} {x : α} {j : Nat} (h : j ∈ b2j b x) :
    b.get? j = some x := by
  unfold b2j at h
  split at h
  · simp at h
  · exact occIdx_mem h

/-! ## difflib: find_longest_match -/

/-- A matching block `(i, j, size)`: `a[i:i+size] == b[j:j+size]`. -/
structure MatchBlk where
  i : Nat
  j : Nat
  size : Nat
deriving DecidableEq

/-- `j2len.get(j, 0)`: association-list lookup with default `0`. -/
def lookup0 : List (Nat × Nat) → Nat → Nat
  | [], _ => 0
  | (j', k) :: rest, j => if j' = j then k else lookup0 rest j

lemma lookup0_mem {l : List (Nat × Nat)} {j k : Nat}
    (h : lookup0 l j = k) (hk : k ≠ 0) : (j, k) ∈ l := by
  induction l with
  | nil => simp [lookup0] at h; omega
  | cons p rest ih =>
    obtain ⟨j', k'⟩ := p
    by_cases hj : j' = j
    · subst hj
      simp [lookup0] at h
      subst h
      simp
    · simp [lookup0, hj] at h
      exact List.mem_cons_of_mem _ (ih h)

/-- The inner `for j in b2j.get(a[i], nothing)` loop of `find_longest_match`:
skips `j < blo`, stops at the first `j ≥ bhi` (the list is ascending),
writes `newj2len[j] = j2len.get(j-1, 0) + 1` and updates the best block. -/
def innerJ (prev : List (Nat × Nat)) (i blo bhi : Nat) :
    List Nat → List (Nat × Nat) → MatchBlk → List (Nat × Nat) × MatchBlk
  | [], acc, best => (acc, best)
  | j :: js, acc, best =>
    if j < blo then innerJ prev i blo bhi js acc best
    else if bhi ≤ j then (acc, best)
    else
      let k := (if j = 0 then 0 else lookup0 prev (j - 1)) + 1
      let best' := if best.size < k then ⟨i + 1 - k, j + 1 - k, k⟩ else best
      innerJ prev i blo bhi js ((j, k) :: acc) best'

/-- The outer `for i in range(alo, ahi)` loop of `find_longest_match`:
`is` is the remaining index range, `j2len` the chain-length dictionary of
the previous iteration. -/
def flmOuter (a : List α) (bjf : α → List Nat) (blo bhi : Nat) :
    List Nat → List (Nat × Nat) → MatchBlk → MatchBlk
  | [], _, best => best
  | i :: is, j2len, best =>
    let js := match a.get? i with
      | some x => bjf x
      | none => []
    let r := innerJ j2len i blo bhi js [] best
    flmOuter a bjf blo bhi is r.1 r.2

/-- First extension loop: grow the best block downwards while the preceding
elements match (`bjunk` is empty since `isjunk` is `None`). -/
def extendLower (a b : List α) (alo blo : Nat) (m : MatchBlk) : MatchBlk :=
  if h : alo < m.i ∧ blo < m.j ∧ (a.get? (m.i - 1)).isSome ∧
      a.get? (m.i - 1) = b.get? (m.j - 1) then
    extendLower a b alo blo ⟨m.i - 1, m.j - 1, m.size + 1⟩
  else m
termination_by m.i
decreasing_by
  show m.i - 1 < m.i
  omega

/-- Second extension loop: grow the best block upwards while the following
elements match. -/
def extendUpper (a b : List α) (ahi bhi : Nat) (m : MatchBlk) : MatchBlk :=
  if h : m.i + m.size < ahi ∧ m.j + m.size < bhi ∧
      (a.get? (m.i + m.size)).isSome ∧
      a.get? (m.i + m.size) = b.get? (m.j + m.size) then
    extendUpper a b ahi bhi ⟨m.i, m.j, m.size + 1⟩
  else m
termination_by ahi - (m.i + m.size)
decreasing_by
  show ahi - (m.i + (m.size + 1)) < ahi - (m.i + m.size)
  omega

/-- `SequenceMatcher.find_longest_match(alo, ahi, blo, bhi)` for
`isjunk = None`. -/
def findLongestMatch (a b : List α) (alo ahi blo bhi : Nat) : MatchBlk :=
  let best := flmOuter a (b2j b) blo bhi (pyRange alo ahi) [] ⟨alo, blo, 0⟩
  extendUpper a b ahi bhi (extendLower a b alo blo best)

/-! ## Invariants of find_longest_match -/

lemma slice_succ_left {l : List α} {i j : Nat} {v : α}
    (h : l.get? i = some v) (hij : i < j) :
    slice l i j = v :: slice l (i + 1) j := by
  obtain ⟨hlt, hv⟩ := List.get?_eq_some.mp h
  have h1 : slice l i (i + 1) ++ slice l (i + 1) j = slice l i j :=
    slice_append l (by omega) hij
  rw [← h1, slice_one l hlt, hv]
  simp

lemma slice_succ_right {l : List α} {i j : Nat} {v : α}
    (h : l.get? j = some v) (hij : i ≤ j) :
    slice l i (j + 1) = slice l i j ++ [v] := by
  obtain ⟨hlt, hv⟩ := List.get?_eq_some.mp h
  have h1 : slice l i j ++ slice l j (j + 1) = slice l i (j + 1) :=
    slice_append l hij (by omega)
  rw [← h1, slice_one l hlt, hv]

/-- Invariant of the best block tracked by `find_longest_match`: either it is
still the initial `(alo, blo, 0)`, or it is a genuine matching block lying
inside the search rectangle. -/
def BestOk (a b : List α) (alo ahi blo bhi : Nat) (m : MatchBlk) : Prop :=
  (m.size = 0 ∧ m.i = alo ∧ m.j = blo) ∨
  (alo ≤ m.i ∧ m.i + m.size ≤ ahi ∧ blo ≤ m.j ∧ m.j + m.size ≤ bhi ∧
    1 ≤ m.size ∧ slice a m.i (m.i + m.size) = slice b m.j (m.j + m.size))

/-- Invariant of the `j2len` dictionary after processing outer index `e - 1`:
an entry `(j, k)` records a matching chain of length `k` ending at `a[e-1]`
and `b[j]`, lying inside the rectangle bounds. -/
def J2Ok (a b : List α) (alo blo bhi e : Nat) (l : List (Nat × Nat)) : Prop :=
  ∀ p ∈ l, blo ≤ p.1 ∧ p.1 < bhi ∧ 1 ≤ p.2 ∧ p.2 + blo ≤ p.1 + 1 ∧
    p.2 + alo ≤ e ∧ p.1 < b.length ∧ e ≤ a.length ∧
    slice a (e - p.2) e = slice b (p.1 + 1 - p.2) (p.1 + 1)

lemma chain_extend {a b : List α} {alo blo bhi i j : Nat} {x : α}
    (hx : a.get? i = some x) (hj : b.get? j = some x)
    (hblo : blo ≤ j) (hbhi : j < bhi) (halo : alo ≤ i)
    {prev : List (Nat × Nat)} (hprev : J2Ok a b alo blo bhi i prev) :
    ∀ k, k = (if j = 0 then 0 else lookup0 prev (j - 1)) + 1 →
    1 ≤ k ∧ k + blo ≤ j + 1 ∧ k + alo ≤ i + 1 ∧ j < b.length ∧ i + 1 ≤ a.length ∧
      slice a (i + 1 - k) (i + 1) = slice b (j + 1 - k) (j + 1) := by
  intro k hk
  obtain ⟨hia, hxa⟩ := List.get?_eq_some.mp hx
  obtain ⟨hjb, hxb⟩ := List.get?_eq_some.mp hj
  set k0 := (if j = 0 then 0 else lookup0 prev (j - 1)) with hk0
  by_cases h0 : k0 = 0
  · -- fresh chain of length 1
    subst hk
    rw [h0]
    refine ⟨by omega, by omega, by omega, hjb, by omega, ?_⟩
    have h1 : i + 1 - (0 + 1) = i := by omega
    have h2 : j + 1 - (0 + 1) = j := by omega
    rw [h1, h2, slice_one a hia, slice_one b hjb, hxa, hxb]
  · -- extend the chain ending at (i-1, j-1)
    have hjne : j ≠ 0 := by
      intro hj0
      rw [hk0, if_pos hj0] at h0
      exact h0 rfl
    have hlk : lookup0 prev (j - 1) = k0 := by
      rw [hk0, if_neg hjne]
    have hmem : (j - 1, k0) ∈ prev := lookup0_mem hlk h0
    obtain ⟨hp1, hp2, hp3, hp4, hp5, hp6, hp7, hp8⟩ := hprev _ hmem
    simp only at hp1 hp2 hp3 hp4 hp5 hp6 hp7 hp8
    have hj1 : j - 1 + 1 = j := by omega
    rw [hj1] at hp4 hp8
    subst hk
    refine ⟨by omega, by omega, by omega, hjb, by omega, ?_⟩
    have e1 : i + 1 - (k0 + 1) = i - k0 := by omega
    have e2 : j + 1 - (k0 + 1) = j - k0 := by omega
    rw [e1, e2]
    have ha2 : slice a (i - k0) (i + 1) = slice a (i - k0) i ++ [x] := by
      rw [slice_succ_right hx (by omega)]
    have hb2 : slice b (j - k0) (j + 1) = slice b (j - k0) j ++ [x] := by
      rw [slice_succ_right hj (by omega)]
    rw [ha2, hb2, hp8]

lemma innerJ_ok {a b : List α} {alo ahi blo bhi i : Nat} {x : α}
    (hx : a.get? i = some x) (halo : alo ≤ i) (hahi : i < ahi) :
    ∀ (js : List Nat), (∀ j ∈ js, b.get? j = some x) →
    ∀ (prev acc : List (Nat × Nat)) (best : MatchBlk),
    J2Ok a b alo blo bhi i prev →
    J2Ok a b alo blo bhi (i + 1) acc →
    BestOk a b alo ahi blo bhi best →
    J2Ok a b alo blo bhi (i + 1) (innerJ prev i blo bhi js acc best).1 ∧
      BestOk a b alo ahi blo bhi (innerJ prev i blo bhi js acc best).2 := by
  intro js
  induction js with
  | nil =>
    intro _ prev acc best _ hacc hbest
    exact ⟨hacc, hbest⟩
  | cons j js ih =>
    intro hjs prev acc best hprev hacc hbest
    have hjx : b.get? j = some x := hjs j (by simp)
    have hjs' : ∀ j' ∈ js, b.get? j' = some x := fun j' hj' => hjs j' (by simp [hj'])
    by_cases h1 : j < blo
    · rw [innerJ, if_pos h1]
      exact ih hjs' prev acc best hprev hacc hbest
    · by_cases h2 : bhi ≤ j
      · rw [innerJ, if_neg h1, if_pos h2]
        exact ⟨hacc, hbest⟩
      · rw [innerJ, if_neg h1, if_neg h2]
        dsimp only
        obtain ⟨hc1, hc2, hc3, hc4, hc5, hc6⟩ :=
          chain_extend hx hjx (by omega) (by omega) halo hprev _ rfl
        set k := (if j = 0 then 0 else lookup0 prev (j - 1)) + 1 with hkdef
        apply ih hjs'
        · exact hprev
        · -- new acc entry satisfies the invariant
          intro p hp
          rcases List.mem_cons.mp hp with hpj | hpm
          · subst hpj
            exact ⟨by omega, by omega, hc1, hc2, hc3, hc4, hc5, hc6⟩
          · exact hacc p hpm
        · -- updated best satisfies the invariant
          by_cases hlt : best.size < k
          · rw [if_pos hlt]
            apply Or.inr
            refine ⟨?_, ?_, ?_, ?_, ?_, ?_⟩
            · show alo ≤ i + 1 - k
              omega
            · show i + 1 - k + k ≤ ahi
              omega
            · show blo ≤ j + 1 - k
              omega
            · show j + 1 - k + k ≤ bhi
              omega
            · show 1 ≤ k
              omega
            · show slice a (i + 1 - k) (i + 1 - k + k) =
                slice b (j + 1 - k) (j + 1 - k + k)
              have e1 : i + 1 - k + k = i + 1 := by omega
              have e2 : j + 1 - k + k = j + 1 := by omega
              rw [e1, e2]
              exact hc6
          · rw [if_neg hlt]
            exact hbest

lemma flmOuter_ok {a b : List α} {alo ahi blo bhi : Nat} :
    ∀ (n i : Nat) (j2len : List (Nat × Nat)) (best : MatchBlk),
      ahi - i ≤ n → alo ≤ i →
      J2Ok a b alo blo bhi i j2len →
      BestOk a b alo ahi blo bhi best →
      BestOk a b alo ahi blo bhi
        (flmOuter a (b2j b) blo bhi (pyRange i ahi) j2len best) := by
  intro n
  induction n with
  | zero =>
    intro i j2len best hle halo _ hbest
    rw [pyRange_nil _ _ (by omega), flmOuter]
    exact hbest
  | succ n ih =>
    intro i j2len best hle halo hj2 hbest
    by_cases hi : i < ahi
    · rw [pyRange_cons _ _ hi, flmOuter]
      cases hx : a.get? i with
      | none =>
        dsimp only
        have hnil : (innerJ j2len i blo bhi [] [] best) = ([], best) := rfl
        rw [hnil]
        apply ih (i + 1) _ best (by omega) (by omega) _ hbest
        intro p hp
        simp at hp
      | some x =>
        dsimp only
        have h := innerJ_ok hx halo hi (b2j b x) (fun j hj => b2j_mem hj)
          j2len [] best hj2 (by intro p hp; simp at hp) hbest
        exact ih (i + 1) _ _ (by omega) (by omega) h.1 h.2
    · rw [pyRange_nil _ _ (by omega), flmOuter]
      exact hbest

lemma extendLower_ok {a b : List α} {alo ahi blo bhi : Nat} :
    ∀ (n : Nat) (m : MatchBlk), m.i ≤ n →
      BestOk a b alo ahi blo bhi m →
      BestOk a b alo ahi blo bhi (extendLower a b alo blo m) := by
  intro n
  induction n with
  | zero =>
    intro m hle hm
    rw [extendLower]
    split
    · next h =>
      obtain ⟨h1, _, _, _⟩ := h
      omega
    · exact hm
  | succ n ih =>
    intro m hle hm
    rw [extendLower]
    split
    · next h =>
      obtain ⟨h1, h2, h3, h4⟩ := h
      apply ih _ (by show m.i - 1 ≤ n; omega)
      unfold BestOk at hm
      rcases hm with ⟨hs, hi, hj⟩ | ⟨hb1, hb2, hb3, hb4, hb5, hb6⟩
      · omega
      · apply Or.inr
        obtain ⟨v, hv⟩ := Option.isSome_iff_exists.mp h3
        have hbv : b.get? (m.j - 1) = some v := by rw [← h4]; exact hv
        refine ⟨?_, ?_, ?_, ?_, ?_, ?_⟩
        · show alo ≤ m.i - 1
          omega
        · show m.i - 1 + (m.size + 1) ≤ ahi
          omega
        · show blo ≤ m.j - 1
          omega
        · show m.j - 1 + (m.size + 1) ≤ bhi
          omega
        · show 1 ≤ m.size + 1
          omega
        · show slice a (m.i - 1) (m.i - 1 + (m.size + 1)) =
            slice b (m.j - 1) (m.j - 1 + (m.size + 1))
          have e1 : m.i - 1 + (m.size + 1) = m.i + m.size := by omega
          have e2 : m.j - 1 + (m.size + 1) = m.j + m.size := by omega
          rw [e1, e2, slice_succ_left hv (by omega), slice_succ_left hbv (by omega)]
          have e3 : m.i - 1 + 1 = m.i := by omega
          have e4 : m.j - 1 + 1 = m.j := by omega
          rw [e3, e4, hb6]
    · exact hm

lemma extendUpper_ok {a b : List α} {alo ahi blo bhi : Nat} :
    ∀ (n : Nat) (m : MatchBlk), ahi - (m.i + m.size) ≤ n →
      BestOk a b alo ahi blo bhi m →
      BestOk a b alo ahi blo bhi (extendUpper a b ahi bhi m) := by
  intro n
  induction n with
  | zero =>
    intro m hle hm
    rw [extendUpper]
    split
    · next h =>
      obtain ⟨h1, _, _, _⟩ := h
      omega
    · exact hm
  | succ n ih =>
    intro m hle hm
    rw [extendUpper]
    split
    · next h =>
      obtain ⟨h1, h2, h3, h4⟩ := h
      apply ih _ (by show ahi - (m.i + (m.size + 1)) ≤ n; omega)
      obtain ⟨v, hv⟩ := Option.isSome_iff_exists.mp h3
      have hbv : b.get? (m.j + m.size) = some v := by rw [← h4]; exact hv
      unfold BestOk at hm
      have hslice : slice a m.i (m.i + m.size) = slice b m.j (m.j + m.size) := by
        rcases hm with ⟨hs, hi, hj⟩ | ⟨_, _, _, _, _, hb6⟩
        · rw [hs, slice_nil a (by omega), slice_nil b (by omega)]
        · exact hb6
      have hbounds : alo ≤ m.i ∧ blo ≤ m.j := by
        rcases hm with ⟨hs, hi, hj⟩ | ⟨hb1, _, hb3, _, _, _⟩
        · omega
        · exact ⟨hb1, hb3⟩
      apply Or.inr
      refine ⟨?_, ?_, ?_, ?_, ?_, ?_⟩
      · show alo ≤ m.i
        omega
      · show m.i + (m.size + 1) ≤ ahi
        omega
      · show blo ≤ m.j
        omega
      · show m.j + (m.size + 1) ≤ bhi
        omega
      · show 1 ≤ m.size + 1
        omega
      · show slice a m.i (m.i + (m.size + 1)) = slice b m.j (m.j + (m.size + 1))
        have e1 : m.i + (m.size + 1) = (m.i + m.size) + 1 := by omega
        have e2 : m.j + (m.size + 1) = (m.j + m.size) + 1 := by omega
        rw [e1, e2, slice_succ_right hv (by omega), slice_succ_right hbv (by omega),
          hslice]
    · exact hm

/-- The block returned by `find_longest_match` is either the trivial
`(alo, blo, 0)` or a genuine matching block inside the rectangle. -/
lemma findLongestMatch_ok (a b : List α) (alo ahi blo bhi : Nat) :
    BestOk a b alo ahi blo bhi (findLongestMatch a b alo ahi blo bhi) := by
  unfold findLongestMatch
  apply extendUpper_ok _ _ le_rfl
  apply extendLower_ok _ _ le_rfl
  apply flmOuter_ok _ alo [] _ le_rfl le_rfl
  · intro p hp
    simp at hp
  · left
    exact ⟨rfl, rfl, rfl⟩

lemma flm_bounds {a b : List α} {alo ahi blo bhi : Nat}
    (h : ¬ (findLongestMatch a b alo ahi blo bhi).size = 0) :
    alo ≤ (findLongestMatch a b alo ahi blo bhi).i ∧
    (findLongestMatch a b alo ahi blo bhi).i +
      (findLongestMatch a b alo ahi blo bhi).size ≤ ahi ∧
    blo ≤ (findLongestMatch a b alo ahi blo bhi).j ∧
    (findLongestMatch a b alo ahi blo bhi).j +
      (findLongestMatch a b alo ahi blo bhi).size ≤ bhi ∧
    1 ≤ (findLongestMatch a b alo ahi blo bhi).size ∧
    slice a (findLongestMatch a b alo ahi blo bhi).i
      ((findLongestMatch a b alo ahi blo bhi).i +
        (findLongestMatch a b alo ahi blo bhi).size) =
    slice b (findLongestMatch a b alo ahi blo bhi).j
      ((findLongestMatch a b alo ahi blo bhi).j +
        (findLongestMatch a b alo ahi blo bhi).size) := by
  have hb := findLongestMatch_ok a b alo ahi blo bhi
  unfold BestOk at hb
  rcases hb with h0 | h1
  · exact absurd h0.1 h
  · exact h1

/-! ## get_matching_blocks -/

/-- The divide-and-conquer block search of `get_matching_blocks`, written as
the in-order recursion.  (CPython keeps a LIFO queue of rectangles and sorts
the collected blocks afterwards; since every block found in the left
sub-rectangle is componentwise strictly below the pivot block and every block
of the right sub-rectangle strictly above it, that sort reproduces exactly
this in-order traversal.) -/
def matchingBlocksAux (a b : List α) (alo ahi blo bhi : Nat) : List MatchBlk :=
  if h0 : (findLongestMatch a b alo ahi blo bhi).size = 0 then []
  else
    (if h1 : alo < (findLongestMatch a b alo ahi blo bhi).i ∧
        blo < (findLongestMatch a b alo ahi blo bhi).j then
      matchingBlocksAux a b alo (findLongestMatch a b alo ahi blo bhi).i
        blo (findLongestMatch a b alo ahi blo bhi).j
    else []) ++
    findLongestMatch a b alo ahi blo bhi ::
    (if h2 : (findLongestMatch a b alo ahi blo bhi).i +
          (findLongestMatch a b alo ahi blo bhi).size < ahi ∧
        (findLongestMatch a b alo ahi blo bhi).j +
          (findLongestMatch a b alo ahi blo bhi).size < bhi then
      matchingBlocksAux a b
        ((findLongestMatch a b alo ahi blo bhi).i +
          (findLongestMatch a b alo ahi blo bhi).size) ahi
        ((findLongestMatch a b alo ahi blo bhi).j +
          (findLongestMatch a b alo ahi blo bhi).size) bhi
    else [])
termination_by (ahi - alo) + (bhi - blo)
decreasing_by
  · obtain ⟨hb1, hb2, hb3, hb4, hb5, _⟩ := flm_bounds h0
    omega
  · obtain ⟨hb1, hb2, hb3, hb4, hb5, _⟩ := flm_bounds h0
    omega

/-- The adjacency-merging pass of `get_matching_blocks`: `acc` is the current
candidate block `(i1, j1, k1)` (initially `(0, 0, 0)`); a following block that
starts exactly where `acc` ends is absorbed, otherwise `acc` is emitted
(unless it is zero-sized). -/
def mergeBlocks : MatchBlk → List MatchBlk → List MatchBlk
  | acc, [] => if acc.size ≠ 0 then [acc] else []
  | acc, blk :: rest =>
    if acc.i + acc.size = blk.i ∧ acc.j + acc.size = blk.j then
      mergeBlocks ⟨acc.i, acc.j, acc.size + blk.size⟩ rest
    else
      (if acc.size ≠ 0 then [acc] else []) ++ mergeBlocks blk rest

/-- `SequenceMatcher.get_matching_blocks`: blocks in order, merged, with the
`(len(a), len(b), 0)` sentinel appended. -/
def getMatchingBlocks (a b : List α) : List MatchBlk :=
  mergeBlocks ⟨0, 0, 0⟩ (matchingBlocksAux a b 0 a.length 0 b.length) ++
    [⟨a.length, b.length, 0⟩]

/-- A chain of genuine matching blocks: starting from `(alo, blo)` the blocks
have nondecreasing, non-overlapping coordinates, each block is a real match
between `a` and `b`, and the chain ends no later than `(ahi, bhi)`. -/
inductive Seg (a b : List α) : Nat → Nat → Nat → Nat → List MatchBlk → Prop where
  | nil {alo blo ahi bhi : Nat} (ha : alo ≤ ahi) (hb : blo ≤ bhi) :
      Seg a b alo blo ahi bhi []
  | cons {alo blo ahi bhi i j k : Nat} {rest : List MatchBlk}
      (hi : alo ≤ i) (hj : blo ≤ j)
      (hm : slice a i (i + k) = slice b j (j + k))
      (hrest : Seg a b (i + k) (j + k) ahi bhi rest) :
      Seg a b alo blo ahi bhi (⟨i, j, k⟩ :: rest)

lemma seg_le {a b : List α} {alo blo ahi bhi : Nat} {l : List MatchBlk}
    (h : Seg a b alo blo ahi bhi l) : alo ≤ ahi ∧ blo ≤ bhi := by
  induction h with
  | nil ha hb => exact ⟨ha, hb⟩
  | cons hi hj hm hrest ih => omega

lemma seg_weaken {a b : List α} {alo blo m n ahi bhi : Nat} {l : List MatchBlk}
    (h : Seg a b m n ahi bhi l) (ha : alo ≤ m) (hb : blo ≤ n) :
    Seg a b alo blo ahi bhi l := by
  cases h with
  | nil h1 h2 => exact Seg.nil (by omega) (by omega)
  | cons hi hj hm hrest => exact Seg.cons (by omega) (by omega) hm hrest

lemma seg_glue {a b : List α} {alo blo ahi bhi : Nat} (m n : Nat)
    {l1 l2 : List MatchBlk}
    (h1 : Seg a b alo blo m n l1) (h2 : Seg a b m n ahi bhi l2) :
    Seg a b alo blo ahi bhi (l1 ++ l2) := by
  induction h1 with
  | nil ha hb => exact seg_weaken h2 ha hb
  | cons hi hj hm hrest ih => exact Seg.cons hi hj hm (ih h2)

lemma matchingBlocksAux_seg {a b : List α} :
    ∀ (n alo ahi blo bhi : Nat), (ahi - alo) + (bhi - blo) ≤ n →
      alo ≤ ahi → blo ≤ bhi →
      Seg a b alo blo ahi bhi (matchingBlocksAux a b alo ahi blo bhi) := by
  intro n
  induction n with
  | zero =>
    intro alo ahi blo bhi hle ha hb
    rw [matchingBlocksAux]
    split
    · exact Seg.nil ha hb
    · next h0 =>
      obtain ⟨hb1, hb2, hb3, hb4, hb5, _⟩ := flm_bounds h0
      omega
  | succ n ih =>
    intro alo ahi blo bhi hle ha hb
    rw [matchingBlocksAux]
    split
    · exact Seg.nil ha hb
    · next h0 =>
      obtain ⟨hb1, hb2, hb3, hb4, hb5, hbm⟩ := flm_bounds h0
      apply seg_glue ((findLongestMatch a b alo ahi blo bhi).i)
        ((findLongestMatch a b alo ahi blo bhi).j)
      · split
        · next h1 => exact ih _ _ _ _ (by omega) (by omega) (by omega)
        · next h1 => exact Seg.nil hb1 hb3
      · show Seg a b _ _ _ _
          ((⟨(findLongestMatch a b alo ahi blo bhi).i,
             (findLongestMatch a b alo ahi blo bhi).j,
             (findLongestMatch a b alo ahi blo bhi).size⟩ : MatchBlk) :: _)
        apply Seg.cons le_rfl le_rfl hbm
        split
        · next h2 => exact ih _ _ _ _ (by omega) (by omega) (by omega)
        · next h2 => exact Seg.nil hb2 hb4

lemma seg_merge {a b : List α} {ahi bhi : Nat} :
    ∀ (l : List MatchBlk) (acc : MatchBlk) (alo blo : Nat),
      Seg a b alo blo ahi bhi (acc :: l) →
      Seg a b alo blo ahi bhi (mergeBlocks acc l) := by
  intro l
  induction l with
  | nil =>
    intro acc alo blo h
    obtain ⟨ai, aj, ak⟩ := acc
    rw [mergeBlocks]
    split
    · exact h
    · cases h with
      | cons hi hj hm hrest =>
        cases hrest with
        | nil h1 h2 => exact Seg.nil (by omega) (by omega)
  | cons blk rest ih =>
    intro acc alo blo h
    obtain ⟨ai, aj, ak⟩ := acc
    obtain ⟨bi, bj, bk⟩ := blk
    cases h with
    | cons hi1 hj1 hm1 hrest1 =>
      cases hrest1 with
      | cons hi2 hj2 hm2 hrest2 =>
        rw [mergeBlocks]
        split
        · next hadj =>
          obtain ⟨he1, he2⟩ := hadj
          simp only at he1 he2
          apply ih
          apply Seg.cons hi1 hj1
          · show slice a ai (ai + (ak + bk)) = slice b aj (aj + (ak + bk))
            have g1 : slice a ai (ai + (ak + bk)) =
                slice a ai (ai + ak) ++ slice a (ai + ak) (ai + ak + bk) := by
              rw [slice_append a (by omega) (by omega)]
              congr 1
              omega
            have g2 : slice b aj (aj + (ak + bk)) =
                slice b aj (aj + ak) ++ slice b (aj + ak) (aj + ak + bk) := by
              rw [slice_append b (by omega) (by omega)]
              congr 1
              omega
            rw [g1, g2, hm1]
            congr 1
            rw [he1, he2]
            exact hm2
          · show Seg a b (ai + (ak + bk)) (aj + (ak + bk)) ahi bhi rest
            have g5 : ai + (ak + bk) = bi + bk := by omega
            have g6 : aj + (ak + bk) = bj + bk := by omega
            rw [g5, g6]
            exact hrest2
        · next hadj =>
          apply seg_glue (ai + ak) (aj + ak)
          · split
            · exact Seg.cons hi1 hj1 hm1 (Seg.nil le_rfl le_rfl)
            · exact Seg.nil (by omega) (by omega)
          · exact ih _ _ _ (Seg.cons hi2 hj2 hm2 hrest2)

lemma getMatchingBlocks_seg (a b : List α) :
    Seg a b 0 0 a.length b.length
      (mergeBlocks ⟨0, 0, 0⟩ (matchingBlocksAux a b 0 a.length 0 b.length)) := by
  apply seg_merge
  apply Seg.cons (Nat.le_refl 0) (Nat.le_refl 0)
  · rw [slice_nil a (by omega), slice_nil b (by omega)]
  · show Seg a b (0 + 0) (0 + 0) _ _ _
    exact matchingBlocksAux_seg (a.length + b.length) 0 a.length 0 b.length
      (by omega) (by omega) (by omega)

/-! ## get_opcodes -/

/-- difflib opcode tags. -/
inductive Tag where
  | equal
  | delete
  | insert
  | replace
deriving DecidableEq

/-- An opcode `(tag, a1, a2, b1, b2)` as produced by `get_opcodes`. -/
structure Opcode where
  tag : Tag
  a1 : Nat
  a2 : Nat
  b1 : Nat
  b2 : Nat
deriving DecidableEq

/-- The opcode-emission walk of `get_opcodes` over the matching blocks,
starting at positions `(i, j)`. -/
def opcodesFromBlocks : Nat → Nat → List MatchBlk → List Opcode
  | _, _, [] => []
  | i, j, blk :: rest =>
    (if i < blk.i ∧ j < blk.j then [⟨Tag.replace, i, blk.i, j, blk.j⟩]
     else if i < blk.i then [⟨Tag.delete, i, blk.i, j, blk.j⟩]
     else if j < blk.j then [⟨Tag.insert, i, blk.i, j, blk.j⟩]
     else []) ++
    (if blk.size ≠ 0 then
      [⟨Tag.equal, blk.i, blk.i + blk.size, blk.j, blk.j + blk.size⟩]
     else []) ++
    opcodesFromBlocks (blk.i + blk.size) (blk.j + blk.size) rest

/-- `SequenceMatcher.get_opcodes`. -/
def getOpcodes (a b : List α) : List Opcode :=
  opcodesFromBlocks 0 0 (getMatchingBlocks a b)

/-- Structural characterisation of an emitted opcode list: the opcodes tile
both sequences contiguously from the start positions up to the two ends,
`equal` opcodes are genuine matches of equal length on both sides, and gap
opcodes are nonempty on the appropriate side(s). -/
inductive OpChain (a b : List α) : Nat → Nat → List Opcode → Prop where
  | nil : OpChain a b a.length b.length []
  | eqStep {i j k : Nat} {rest : List Opcode} (hk : 1 ≤ k)
      (hm : slice a i (i + k) = slice b j (j + k))
      (h : OpChain a b (i + k) (j + k) rest) :
      OpChain a b i j (⟨Tag.equal, i, i + k, j, j + k⟩ :: rest)
  | delStep {i i' j : Nat} {rest : List Opcode} (hlt : i < i')
      (h : OpChain a b i' j rest) :
      OpChain a b i j (⟨Tag.delete, i, i', j, j⟩ :: rest)
  | insStep {i j j' : Nat} {rest : List Opcode} (hlt : j < j')
      (h : OpChain a b i j' rest) :
      OpChain a b i j (⟨Tag.insert, i, i, j, j'⟩ :: rest)
  | repStep {i i' j j' : Nat} {rest : List Opcode} (hi : i < i') (hj : j < j')
      (h : OpChain a b i' j' rest) :
      OpChain a b i j (⟨Tag.replace, i, i', j, j'⟩ :: rest)

lemma opChain_step {a b : List α} {i j bi bj bk : Nat} {tail : List Opcode}
    (hi : i ≤ bi) (hj : j ≤ bj)
    (hm : slice a bi (bi + bk) = slice b bj (bj + bk))
    (htail : OpChain a b (bi + bk) (bj + bk) tail) :
    OpChain a b i j
      ((if i < bi ∧ j < bj then [⟨Tag.replace, i, bi, j, bj⟩]
        else if i < bi then [⟨Tag.delete, i, bi, j, bj⟩]
        else if j < bj then [⟨Tag.insert, i, bi, j, bj⟩]
        else []) ++
       (if bk ≠ 0 then [⟨Tag.equal, bi, bi + bk, bj, bj + bk⟩] else []) ++
       tail) := by
  have hmid : OpChain a b bi bj
      ((if bk ≠ 0 then [⟨Tag.equal, bi, bi + bk, bj, bj + bk⟩] else []) ++
        tail) := by
    by_cases hbk : bk ≠ 0
    · rw [if_pos hbk, List.singleton_append]
      exact OpChain.eqStep (by omega) hm htail
    · rw [if_neg hbk, List.nil_append]
      have h0 : bk = 0 := by omega
      subst h0
      simpa using htail
  by_cases h1 : i < bi ∧ j < bj
  · rw [if_pos h1, List.singleton_append]
    exact OpChain.repStep h1.1 h1.2 hmid
  · rw [if_neg h1]
    by_cases h2 : i < bi
    · have hjb : j = bj := by omega
      subst hjb
      rw [if_pos h2, List.singleton_append]
      exact OpChain.delStep h2 hmid
    · have hib : i = bi := by omega
      subst hib
      by_cases h3 : j < bj
      · rw [if_neg h2, if_pos h3, List.singleton_append]
        exact OpChain.insStep h3 hmid
      · have hjb : j = bj := by omega
        subst hjb
        rw [if_neg h2, if_neg h3, List.nil_append]
        exact hmid

lemma opcodes_chain {a b : List α} :
    ∀ (blocks : List MatchBlk) (i j : Nat),
      Seg a b i j a.length b.length blocks →
      OpChain a b i j
        (opcodesFromBlocks i j (blocks ++ [⟨a.length, b.length, 0⟩])) := by
  intro blocks
  induction blocks with
  | nil =>
    intro i j hseg
    obtain ⟨hia, hjb⟩ := seg_le hseg
    rw [List.nil_append, opcodesFromBlocks]
    dsimp only
    apply opChain_step hia hjb
    · rw [slice_nil a (by omega), slice_nil b (by omega)]
    · show OpChain a b (a.length + 0) (b.length + 0)
        (opcodesFromBlocks (a.length + 0) (b.length + 0) [])
      simpa [opcodesFromBlocks] using OpChain.nil
  | cons blk rest ih =>
    intro i j hseg
    cases hseg with
    | cons hi hj hm hrest =>
      rw [List.cons_append, opcodesFromBlocks]
      dsimp only
      exact opChain_step hi hj hm (ih _ _ hrest)

/-- The opcodes of `get_opcodes` always form a well-shaped chain covering
both inputs completely. -/
lemma getOpcodes_chain (a b : List α) : OpChain a b 0 0 (getOpcodes a b) := by
  unfold getOpcodes getMatchingBlocks
  exact opcodes_chain _ 0 0 (getMatchingBlocks_seg a b)

lemma opChain_le {a b : List α} {i j : Nat} {ops : List Opcode}
    (h : OpChain a b i j ops) : i ≤ a.length ∧ j ≤ b.length := by
  induction h with
  | nil => exact ⟨le_rfl, le_rfl⟩
  | eqStep hk hm h ih => omega
  | delStep hlt h ih => omega
  | insStep hlt h ih => omega
  | repStep hi hj h ih => omega

/-! ## Styled runs (the rich text built by compare_cell) -/

/-- A styled run of the intra-cell diff: plain (equal) text, text rendered
as removed, or text rendered as added.  In the Python code a run is an
optional `f_removed`/`f_added` format object followed by the span string in
the flat `rich_text` list handed to `write_rich_string`. -/
inductive Run (α : Type) where
  | plain (s : List α)
  | removed (s : List α)
  | added (s : List α)
deriving DecidableEq

/-- The spans appended to `rich_text` by `compare_cell` for one opcode
(xlsxDiff.py lines 178-189). -/
def emitRuns (v1 v2 : List α) (op : Opcode) : List (Run α) :=
  match op.tag with
  | Tag.equal => [Run.plain (slice v1 op.a1 op.a2)]
  | Tag.delete => [Run.removed (slice v1 op.a1 op.a2)]
  | Tag.insert => [Run.added (slice v2 op.b1 op.b2)]
  | Tag.replace =>
    [Run.removed (slice v1 op.a1 op.a2), Run.added (slice v2 op.b1 op.b2)]

/-- The full rich-text run list built by `compare_cell` for two cell
values. -/
def cellRichText (v1 v2 : List α) : List (Run α) :=
  (getOpcodes v1 v2).flatMap (emitRuns v1 v2)

/-- `is_output_rich_string`: set by the opcode loop exactly when some opcode
is not an `equal` opcode. -/
def isRich (v1 v2 : List α) : Bool :=
  (getOpcodes v1 v2).any (fun op => op.tag ≠ Tag.equal)

/-- Concatenation of the plain and removed spans: the first-input side of a
run list. -/
def oldText : List (Run α) → List α
  | [] => []
  | Run.plain s :: rest => s ++ oldText rest
  | Run.removed s :: rest => s ++ oldText rest
  | Run.added _ :: rest => oldText rest

/-- Concatenation of the plain and added spans: the second-input side of a
run list. -/
def newText : List (Run α) → List α
  | [] => []
  | Run.plain s :: rest => s ++ newText rest
  | Run.removed _ :: rest => newText rest
  | Run.added s :: rest => s ++ newText rest

lemma oldText_append (l1 l2 : List (Run α)) :
    oldText (l1 ++ l2) = oldText l1 ++ oldText l2 := by
  induction l1 with
  | nil => rfl
  | cons r t ih => cases r <;> simp [oldText, ih]

lemma newText_append (l1 l2 : List (Run α)) :
    newText (l1 ++ l2) = newText l1 ++ newText l2 := by
  induction l1 with
  | nil => rfl
  | cons r t ih => cases r <;> simp [newText, ih]

lemma opChain_oldText {a b : List α} {i j : Nat} {ops : List Opcode}
    (h : OpChain a b i j ops) :
    oldText (ops.flatMap (emitRuns a b)) = a.drop i := by
  induction h with
  | nil => simp [oldText]
  | eqStep hk hm h ih =>
    rename_i i j k rest
    rw [List.flatMap_cons, oldText_append, ih]
    have he : oldText (emitRuns a b ⟨Tag.equal, i, i + k, j, j + k⟩) =
        slice a i (i + k) := by
      simp [emitRuns, oldText]
    rw [he]
    exact slice_drop a (by omega)
  | delStep hlt h ih =>
    rename_i i i' j rest
    rw [List.flatMap_cons, oldText_append, ih]
    have he : oldText (emitRuns a b ⟨Tag.delete, i, i', j, j⟩) =
        slice a i i' := by
      simp [emitRuns, oldText]
    rw [he]
    exact slice_drop a (by omega)
  | insStep hlt h ih =>
    rename_i i j j' rest
    rw [List.flatMap_cons, oldText_append, ih]
    have he : oldText (emitRuns a b ⟨Tag.insert, i, i, j, j'⟩) = [] := by
      simp [emitRuns, oldText]
    rw [he, List.nil_append]
  | repStep hilt hjlt h ih =>
    rename_i i i' j j' rest
    rw [List.flatMap_cons, oldText_append, ih]
    have he : oldText (emitRuns a b ⟨Tag.replace, i, i', j, j'⟩) =
        slice a i i' := by
      simp [emitRuns, oldText]
    rw [he]
    exact slice_drop a (by omega)

lemma opChain_newText {a b : List α} {i j : Nat} {ops : List Opcode}
    (h : OpChain a b i j ops) :
    newText (ops.flatMap (emitRuns a b)) = b.drop j := by
  induction h with
  | nil => simp [newText]
  | eqStep hk hm h ih =>
    rename_i i j k rest
    rw [List.flatMap_cons, newText_append, ih]
    have he : newText (emitRuns a b ⟨Tag.equal, i, i + k, j, j + k⟩) =
        slice a i (i + k) := by
      simp [emitRuns, newText]
    rw [he, hm]
    exact slice_drop b (by omega)
  | delStep hlt h ih =>
    rename_i i i' j rest
    rw [List.flatMap_cons, newText_append, ih]
    have he : newText (emitRuns a b ⟨Tag.delete, i, i', j, j⟩) = [] := by
      simp [emitRuns, newText]
    rw [he, List.nil_append]
  | insStep hlt h ih =>
    rename_i i j j' rest
    rw [List.flatMap_cons, newText_append, ih]
    have he : newText (emitRuns a b ⟨Tag.insert, i, i, j, j'⟩) =
        slice b j j' := by
      simp [emitRuns, newText]
    rw [he]
    exact slice_drop b (by omega)
  | repStep hilt hjlt h ih =>
    rename_i i i' j j' rest
    rw [List.flatMap_cons, newText_append, ih]
    have he : newText (emitRuns a b ⟨Tag.replace, i, i', j, j'⟩) =
        slice b j j' := by
      simp [emitRuns, newText]
    rw [he]
    exact slice_drop b (by omega)

lemma allEqual_oldText_eq_newText (v1 v2 : List α) {ops : List Opcode}
    (h : ∀ op ∈ ops, op.tag = Tag.equal) :
    oldText (ops.flatMap (emitRuns v1 v2)) = newText (ops.flatMap (emitRuns v1 v2)) := by
  induction ops with
  | nil => rfl
  | cons op rest ih =>
    have hop := h op (by simp)
    rw [List.flatMap_cons, oldText_append, newText_append,
      ih (fun o ho => h o (by simp [ho]))]
    congr 1
    simp [emitRuns, hop, oldText, newText]

/-! ## compare_2_lists_and_give_indexes_with_enumerator -/

/-- The index pairs appended to `alternated_indexes` for one opcode
(xlsxDiff.py lines 216-230); `-1` marks the side on which an element is
missing. -/
def entriesOf (op : Opcode) : List (Int × Int) :=
  match op.tag with
  | Tag.equal =>
    ((pyRange op.a1 op.a2).zip (pyRange op.b1 op.b2)).map
      (fun (p : Nat × Nat) => ((p.1 : Int), (p.2 : Int)))
  | Tag.delete => (pyRange op.a1 op.a2).map (fun (n : Nat) => ((n : Int), (-1 : Int)))
  | Tag.insert => (pyRange op.b1 op.b2).map (fun (n : Nat) => ((-1 : Int), (n : Int)))
  | Tag.replace =>
    (pyRange op.a1 op.a2).map (fun (n : Nat) => ((n : Int), (-1 : Int))) ++
      (pyRange op.b1 op.b2).map (fun (n : Nat) => ((-1 : Int), (n : Int)))

/-- The `alternated_indexes` list of
`compare_2_lists_and_give_indexes_with_enumerator`. -/
def alternatedIndexes (l1 l2 : List α) : List (Int × Int) :=
  (getOpcodes l1 l2).flatMap entriesOf

/-- `compare_2_lists_and_give_indexes_with_enumerator`: each entry of
`alternated_indexes` becomes `[output_index, i1, i2]`, inserted at position
0, i.e. the enumerated list reversed. -/
def compare2Lists (l1 l2 : List α) : List (Nat × Int × Int) :=
  ((alternatedIndexes l1 l2).enum.map (fun p => (p.1, p.2.1, p.2.2))).reverse

/-- Extraction of the first-input index of an alignment entry, when
present. -/
def fstIdx (e : Int × Int) : Option Int := if 0 ≤ e.1 then some e.1 else none

/-- Extraction of the second-input index of an alignment entry, when
present. -/
def sndIdx (e : Int × Int) : Option Int := if 0 ≤ e.2 then some e.2 else none

/-- An alignment entry referencing both inputs (a matched pair). -/
def bothIdx (e : Int × Int) : Bool := decide (0 ≤ e.1 ∧ 0 ≤ e.2)

lemma fstIdx_pairs (l : List (Nat × Nat)) :
    (l.map (fun (p : Nat × Nat) => ((p.1 : Int), (p.2 : Int)))).filterMap fstIdx =
      l.map (fun p => ((p.1 : Nat) : Int)) := by
  induction l with
  | nil => rfl
  | cons p t ih => simp [fstIdx, ih, Int.natCast_nonneg]

lemma sndIdx_pairs (l : List (Nat × Nat)) :
    (l.map (fun (p : Nat × Nat) => ((p.1 : Int), (p.2 : Int)))).filterMap sndIdx =
      l.map (fun p => ((p.2 : Nat) : Int)) := by
  induction l with
  | nil => rfl
  | cons p t ih => simp [sndIdx, ih, Int.natCast_nonneg]

lemma fstIdx_dels (l : List Nat) :
    (l.map (fun (n : Nat) => ((n : Int), (-1 : Int)))).filterMap fstIdx =
      l.map (fun n => ((n : Nat) : Int)) := by
  induction l with
  | nil => rfl
  | cons n t ih =>
    have hf : fstIdx ((fun (n : Nat) => ((n : Int), (-1 : Int))) n) =
        some ((n : Nat) : Int) := by simp [fstIdx]
    rw [List.map_cons, List.filterMap_cons_some hf, List.map_cons, ih]

lemma sndIdx_dels (l : List Nat) :
    (l.map (fun (n : Nat) => ((n : Int), (-1 : Int)))).filterMap sndIdx = [] := by
  induction l with
  | nil => rfl
  | cons n t ih => simp [sndIdx, ih]

lemma fstIdx_inss (l : List Nat) :
    (l.map (fun (n : Nat) => ((-1 : Int), (n : Int)))).filterMap fstIdx = [] := by
  induction l with
  | nil => rfl
  | cons n t ih => simp [fstIdx, ih]

lemma sndIdx_inss (l : List Nat) :
    (l.map (fun (n : Nat) => ((-1 : Int), (n : Int)))).filterMap sndIdx =
      l.map (fun n => ((n : Nat) : Int)) := by
  induction l with
  | nil => rfl
  | cons n t ih =>
    have hf : sndIdx ((fun (n : Nat) => ((-1 : Int), (n : Int))) n) =
        some ((n : Nat) : Int) := by simp [sndIdx]
    rw [List.map_cons, List.filterMap_cons_some hf, List.map_cons, ih]

lemma map_cast_fst_zip (x u k : Nat) :
    (((pyRange x (x + k)).zip (pyRange u (u + k))).map
        (fun p => ((p.1 : Nat) : Int))) =
      (pyRange x (x + k)).map (fun n => ((n : Nat) : Int)) := by
  have h : ((pyRange x (x + k)).zip (pyRange u (u + k))).map Prod.fst =
      pyRange x (x + k) :=
    List.map_fst_zip _ _ (by simp [pyRange_len])
  calc ((pyRange x (x + k)).zip (pyRange u (u + k))).map
        (fun p => ((p.1 : Nat) : Int))
      = (((pyRange x (x + k)).zip (pyRange u (u + k))).map Prod.fst).map
          (fun n => ((n : Nat) : Int)) := by rw [List.map_map]; rfl
    _ = (pyRange x (x + k)).map (fun n => ((n : Nat) : Int)) := by rw [h]

lemma map_cast_snd_zip (x u k : Nat) :
    (((pyRange x (x + k)).zip (pyRange u (u + k))).map
        (fun p => ((p.2 : Nat) : Int))) =
      (pyRange u (u + k)).map (fun n => ((n : Nat) : Int)) := by
  have h : ((pyRange x (x + k)).zip (pyRange u (u + k))).map Prod.snd =
      pyRange u (u + k) :=
    List.map_snd_zip _ _ (by simp [pyRange_len])
  calc ((pyRange x (x + k)).zip (pyRange u (u + k))).map
        (fun p => ((p.2 : Nat) : Int))
      = (((pyRange x (x + k)).zip (pyRange u (u + k))).map Prod.snd).map
          (fun n => ((n : Nat) : Int)) := by rw [List.map_map]; rfl
    _ = (pyRange u (u + k)).map (fun n => ((n : Nat) : Int)) := by rw [h]

/-- The first-input indices referenced by the alignment entries, in emission
order, are exactly `i, i+1, ..., len(a)-1`. -/
lemma opChain_fst {a b : List α} {i j : Nat} {ops : List Opcode}
    (h : OpChain a b i j ops) :
    (ops.flatMap entriesOf).filterMap fstIdx =
      (pyRange i a.length).map (fun n => ((n : Nat) : Int)) := by
  induction h with
  | nil => simp [pyRange_nil]
  | eqStep hk hm h ih =>
    rename_i i j k rest
    obtain ⟨hla, hlb⟩ := opChain_le h
    rw [List.flatMap_cons, List.filterMap_append, ih]
    have he : (entriesOf ⟨Tag.equal, i, i + k, j, j + k⟩).filterMap fstIdx =
        (pyRange i (i + k)).map (fun n => ((n : Nat) : Int)) := by
      show (((pyRange i (i + k)).zip (pyRange j (j + k))).map
        (fun (p : Nat × Nat) => ((p.1 : Int), (p.2 : Int)))).filterMap fstIdx = _
      rw [fstIdx_pairs, map_cast_fst_zip]
    rw [he, ← List.map_append, pyRange_append (by omega) hla]
  | delStep hlt h ih =>
    rename_i i i' j rest
    obtain ⟨hla, hlb⟩ := opChain_le h
    rw [List.flatMap_cons, List.filterMap_append, ih]
    have he : (entriesOf ⟨Tag.delete, i, i', j, j⟩).filterMap fstIdx =
        (pyRange i i').map (fun n => ((n : Nat) : Int)) := by
      show ((pyRange i i').map (fun (n : Nat) => ((n : Int), (-1 : Int)))).filterMap
        fstIdx = _
      rw [fstIdx_dels]
    rw [he, ← List.map_append, pyRange_append (by omega) hla]
  | insStep hlt h ih =>
    rename_i i j j' rest
    rw [List.flatMap_cons, List.filterMap_append, ih]
    have he : (entriesOf ⟨Tag.insert, i, i, j, j'⟩).filterMap fstIdx = [] := by
      show ((pyRange j j').map (fun (n : Nat) => ((-1 : Int), (n : Int)))).filterMap
        fstIdx = _
      rw [fstIdx_inss]
    rw [he, List.nil_append]
  | repStep hilt hjlt h ih =>
    rename_i i i' j j' rest
    obtain ⟨hla, hlb⟩ := opChain_le h
    rw [List.flatMap_cons, List.filterMap_append, ih]
    have he : (entriesOf ⟨Tag.replace, i, i', j, j'⟩).filterMap fstIdx =
        (pyRange i i').map (fun n => ((n : Nat) : Int)) := by
      show (((pyRange i i').map (fun (n : Nat) => ((n : Int), (-1 : Int))) ++
        (pyRange j j').map (fun (n : Nat) => ((-1 : Int), (n : Int)))).filterMap
          fstIdx = _)
      rw [List.filterMap_append, fstIdx_dels, fstIdx_inss, List.append_nil]
    rw [he, ← List.map_append, pyRange_append (by omega) hla]

/-- The second-input indices referenced by the alignment entries, in emission
order, are exactly `j, j+1, ..., len(b)-1`. -/
lemma opChain_snd {a b : List α} {i j : Nat} {ops : List Opcode}
    (h : OpChain a b i j ops) :
    (ops.flatMap entriesOf).filterMap sndIdx =
      (pyRange j b.length).map (fun n => ((n : Nat) : Int)) := by
  induction h with
  | nil => simp [pyRange_nil]
  | eqStep hk hm h ih =>
    rename_i i j k rest
    obtain ⟨hla, hlb⟩ := opChain_le h
    rw [List.flatMap_cons, List.filterMap_append, ih]
    have he : (entriesOf ⟨Tag.equal, i, i + k, j, j + k⟩).filterMap sndIdx =
        (pyRange j (j + k)).map (fun n => ((n : Nat) : Int)) := by
      show (((pyRange i (i + k)).zip (pyRange j (j + k))).map
        (fun (p : Nat × Nat) => ((p.1 : Int), (p.2 : Int)))).filterMap sndIdx = _
      rw [sndIdx_pairs, map_cast_snd_zip]
    rw [he, ← List.map_append, pyRange_append (by omega) hlb]
  | delStep hlt h ih =>
    rename_i i i' j rest
    rw [List.flatMap_cons, List.filterMap_append, ih]
    have he : (entriesOf ⟨Tag.delete, i, i', j, j⟩).filterMap sndIdx = [] := by
      show ((pyRange i i').map (fun (n : Nat) => ((n : Int), (-1 : Int)))).filterMap
        sndIdx = _
      rw [sndIdx_dels]
    rw [he, List.nil_append]
  | insStep hlt h ih =>
    rename_i i j j' rest
    obtain ⟨hla, hlb⟩ := opChain_le h
    rw [List.flatMap_cons, List.filterMap_append, ih]
    have he : (entriesOf ⟨Tag.insert, i, i, j, j'⟩).filterMap sndIdx =
        (pyRange j j').map (fun n => ((n : Nat) : Int)) := by
      show ((pyRange j j').map (fun (n : Nat) => ((-1 : Int), (n : Int)))).filterMap
        sndIdx = _
      rw [sndIdx_inss]
    rw [he, ← List.map_append, pyRange_append (by omega) hlb]
  | repStep hilt hjlt h ih =>
    rename_i i i' j j' rest
    obtain ⟨hla, hlb⟩ := opChain_le h
    rw [List.flatMap_cons, List.filterMap_append, ih]
    have he : (entriesOf ⟨Tag.replace, i, i', j, j'⟩).filterMap sndIdx =
        (pyRange j j').map (fun n => ((n : Nat) : Int)) := by
      show (((pyRange i i').map (fun (n : Nat) => ((n : Int), (-1 : Int))) ++
        (pyRange j j').map (fun (n : Nat) => ((-1 : Int), (n : Int)))).filterMap
          sndIdx = _)
      rw [List.filterMap_append, sndIdx_dels, sndIdx_inss, List.nil_append]
    rw [he, ← List.map_append, pyRange_append (by omega) hlb]

/-- The number of alignment entries plus the number of matched pairs equals
the remaining lengths of the two inputs. -/
lemma opChain_count {a b : List α} {i j : Nat} {ops : List Opcode}
    (h : OpChain a b i j ops) :
    (ops.flatMap entriesOf).length + (ops.flatMap entriesOf).countP bothIdx =
      (a.length - i) + (b.length - j) := by
  induction h with
  | nil => simp
  | eqStep hk hm h ih =>
    rename_i i j k rest
    obtain ⟨hla, hlb⟩ := opChain_le h
    rw [List.flatMap_cons, List.length_append, List.countP_append]
    have hlen : (entriesOf ⟨Tag.equal, i, i + k, j, j + k⟩).length = k := by
      show (((pyRange i (i + k)).zip (pyRange j (j + k))).map _).length = k
      simp [pyRange_len]
    have hcnt : (entriesOf ⟨Tag.equal, i, i + k, j, j + k⟩).countP bothIdx =
        k := by
      have hall : (entriesOf ⟨Tag.equal, i, i + k, j, j + k⟩).countP bothIdx =
          (entriesOf ⟨Tag.equal, i, i + k, j, j + k⟩).length := by
        apply List.countP_eq_length.mpr
        intro e he
        have he' : e ∈ ((pyRange i (i + k)).zip (pyRange j (j + k))).map
            (fun (p : Nat × Nat) => ((p.1 : Int), (p.2 : Int))) := he
        obtain ⟨p, _, rfl⟩ := List.mem_map.mp he'
        simp [bothIdx, Int.natCast_nonneg]
      rw [hall, hlen]
    rw [hlen, hcnt]
    omega
  | delStep hlt h ih =>
    rename_i i i' j rest
    obtain ⟨hla, hlb⟩ := opChain_le h
    rw [List.flatMap_cons, List.length_append, List.countP_append]
    have hlen : (entriesOf ⟨Tag.delete, i, i', j, j⟩).length = i' - i := by
      show (((pyRange i i').map (fun (n : Nat) => ((n : Int), (-1 : Int)))).length = _)
      simp [pyRange_len]
    have hcnt : (entriesOf ⟨Tag.delete, i, i', j, j⟩).countP bothIdx = 0 := by
      apply List.countP_eq_zero.mpr
      intro e he
      have he' : e ∈ (pyRange i i').map (fun (n : Nat) => ((n : Int), (-1 : Int))) := he
      obtain ⟨p, _, rfl⟩ := List.mem_map.mp he'
      simp [bothIdx]
    rw [hlen, hcnt]
    omega
  | insStep hlt h ih =>
    rename_i i j j' rest
    obtain ⟨hla, hlb⟩ := opChain_le h
    rw [List.flatMap_cons, List.length_append, List.countP_append]
    have hlen : (entriesOf ⟨Tag.insert, i, i, j, j'⟩).length = j' - j := by
      show (((pyRange j j').map (fun (n : Nat) => ((-1 : Int), (n : Int)))).length = _)
      simp [pyRange_len]
    have hcnt : (entriesOf ⟨Tag.insert, i, i, j, j'⟩).countP bothIdx = 0 := by
      apply List.countP_eq_zero.mpr
      intro e he
      have he' : e ∈ (pyRange j j').map (fun (n : Nat) => ((-1 : Int), (n : Int))) := he
      obtain ⟨p, _, rfl⟩ := List.mem_map.mp he'
      simp [bothIdx]
    rw [hlen, hcnt]
    omega
  | repStep hilt hjlt h ih =>
    rename_i i i' j j' rest
    obtain ⟨hla, hlb⟩ := opChain_le h
    rw [List.flatMap_cons, List.length_append, List.countP_append]
    have hlen : (entriesOf ⟨Tag.replace, i, i', j, j'⟩).length =
        (i' - i) + (j' - j) := by
      show ((pyRange i i').map (fun (n : Nat) => ((n : Int), (-1 : Int))) ++
        (pyRange j j').map (fun (n : Nat) => ((-1 : Int), (n : Int)))).length = _
      simp [pyRange_len]
    have hcnt : (entriesOf ⟨Tag.replace, i, i', j, j'⟩).countP bothIdx = 0 := by
      apply List.countP_eq_zero.mpr
      intro e he
      have he' : e ∈ (pyRange i i').map (fun (n : Nat) => ((n : Int), (-1 : Int))) ++
          (pyRange j j').map (fun (n : Nat) => ((-1 : Int), (n : Int))) := he
      rcases List.mem_append.mp he' with h1 | h1
      · obtain ⟨p, _, rfl⟩ := List.mem_map.mp h1
        simp [bothIdx]
      · obtain ⟨p, _, rfl⟩ := List.mem_map.mp h1
        simp [bothIdx]
    rw [hlen, hcnt]
    omega

lemma alternated_fst (l1 l2 : List α) :
    (alternatedIndexes l1 l2).filterMap fstIdx =
      (pyRange 0 l1.length).map (fun n => ((n : Nat) : Int)) :=
  opChain_fst (getOpcodes_chain l1 l2)

lemma alternated_snd (l1 l2 : List α) :
    (alternatedIndexes l1 l2).filterMap sndIdx =
      (pyRange 0 l2.length).map (fun n => ((n : Nat) : Int)) :=
  opChain_snd (getOpcodes_chain l1 l2)

lemma alternated_count (l1 l2 : List α) :
    (alternatedIndexes l1 l2).length +
      (alternatedIndexes l1 l2).countP bothIdx = l1.length + l2.length := by
  have h := opChain_count (getOpcodes_chain l1 l2)
  unfold alternatedIndexes
  simpa [Nat.sub_zero] using h

lemma pyRange_zero (n : Nat) : pyRange 0 n = List.range n := by
  unfold pyRange
  rw [List.range_eq_range', Nat.sub_zero]

lemma count_filterMap_fst {l : List (Int × Int)} {y : Int} (hy : 0 ≤ y) :
    (l.filterMap fstIdx).count y = l.countP (fun e => decide (e.1 = y)) := by
  induction l with
  | nil => rfl
  | cons e t ih =>
    rw [List.countP_cons]
    by_cases h : 0 ≤ e.1
    · have hf : fstIdx e = some e.1 := by simp [fstIdx, h]
      rw [List.filterMap_cons_some hf, List.count_cons, ih]
      by_cases he : e.1 = y <;> simp [he]
    · rw [List.filterMap_cons_none (by simp [fstIdx, h]), ih]
      have hne : ¬ (e.1 = y) := by omega
      simp [hne]

lemma count_filterMap_snd {l : List (Int × Int)} {y : Int} (hy : 0 ≤ y) :
    (l.filterMap sndIdx).count y = l.countP (fun e => decide (e.2 = y)) := by
  induction l with
  | nil => rfl
  | cons e t ih =>
    rw [List.countP_cons]
    by_cases h : 0 ≤ e.2
    · have hf : sndIdx e = some e.2 := by simp [sndIdx, h]
      rw [List.filterMap_cons_some hf, List.count_cons, ih]
      by_cases he : e.2 = y <;> simp [he]
    · rw [List.filterMap_cons_none (by simp [sndIdx, h]), ih]
      have hne : ¬ (e.2 = y) := by omega
      simp [hne]

lemma compare2Lists_reverse (l1 l2 : List α) :
    (compare2Lists l1 l2).reverse =
      (alternatedIndexes l1 l2).enum.map (fun p => (p.1, p.2.1, p.2.2)) := by
  unfold compare2Lists
  rw [List.reverse_reverse]

lemma countP_compare2Lists (l1 l2 : List α) (p : Int × Int → Bool) :
    (compare2Lists l1 l2).countP (fun e => p e.2) =
      (alternatedIndexes l1 l2).countP p := by
  unfold compare2Lists
  rw [List.countP_reverse, List.countP_map]
  have h1 : ((fun (e : Nat × Int × Int) => p e.2) ∘
      (fun (q : Nat × (Int × Int)) => (q.1, q.2.1, q.2.2))) =
      (p ∘ Prod.snd) := rfl
  rw [h1, ← List.countP_map, List.enum_map_snd]

lemma filterMap_compare2Lists_rev (l1 l2 : List α) (f : Int × Int → Option Int) :
    ((compare2Lists l1 l2).reverse).filterMap (fun e => f e.2) =
      (alternatedIndexes l1 l2).filterMap f := by
  rw [compare2Lists_reverse, List.filterMap_map]
  have h1 : ((fun (e : Nat × Int × Int) => f e.2) ∘
      (fun (q : Nat × (Int × Int)) => (q.1, q.2.1, q.2.2))) =
      (f ∘ Prod.snd) := rfl
  rw [h1, ← List.filterMap_map, List.enum_map_snd]

lemma compare2Lists_map_fst (l1 l2 : List α) :
    (compare2Lists l1 l2).map (fun e => e.1) =
      (List.range (compare2Lists l1 l2).length).reverse := by
  unfold compare2Lists
  rw [List.map_reverse, List.length_reverse, List.map_map]
  have h1 : ((fun (e : Nat × Int × Int) => e.1) ∘
      (fun (q : Nat × (Int × Int)) => (q.1, q.2.1, q.2.2))) = Prod.fst := rfl
  rw [h1, List.enum_map_fst, List.length_map, List.enum_length]

lemma pairwise_lt_cast_pyRange (x y : Nat) :
    ((pyRange x y).map (fun n => ((n : Nat) : Int))).Pairwise
      (fun p q => p < q) := by
  apply List.Pairwise.map _ (fun p q hpq => by exact_mod_cast hpq)
  unfold pyRange
  exact List.pairwise_lt_range' x (y - x)

/-! ## xlsxDiff: worksheets, formats, arguments -/

/-- Cell content strings. -/
abbrev Str := List Char

/-- An input worksheet as seen through openpyxl: `cell r c` is the
stringified value of the 1-based cell `(r, c)` (`none` both for an empty
cell and for a cell beyond the populated area, as `cell(...).value` returns
`None` there), plus the `max_row`/`max_column` bounds.  The comparison code
always goes through `str()`, so values are modelled as the strings being
compared. -/
structure Ws where
  maxRow : Nat
  maxCol : Nat
  cell : Nat → Nat → Option Str

/-- The ten `xlsxwriter` formats created by the script (`f_common` plus the
branch-specific visual attributes); the visual attributes themselves live in
the excluded output layer, so formats are modelled as an enumeration. -/
inductive Fmt where
  | f_simple
  | f_added
  | f_added_cell_highlight
  | f_added_cell_modified
  | f_removed
  | f_removed_cell_highlight
  | f_removed_cell_modified
  | f_modified_cell
  | f_equal_cell
  | f_equal_cell_modified
deriving DecidableEq

/-- The argparse switches consumed by the comparison core.  `highlight` is
`-x`, `autofilter` is `-a`, `noempty` is `-e` (all `store_true`, default
`False`).  `no_highlight_added_removed` is `-X`, declared with
`action="store_false"`: it is `True` by default and becomes `False` when
`-X` is passed on the command line.  (`-f`, `--formula` only changes what
the loader puts into the grid and `-v`, `-q` only affect logging, so they
are not modelled.) -/
structure Args where
  highlight : Bool
  no_highlight_added_removed : Bool
  autofilter : Bool
  noempty : Bool
deriving DecidableEq

/-- `get_format` (xlsxDiff.py lines 51-73): when `do_update...` is set the
cell's row and column are first added to the modified sets; then the format
is chosen: the highlight format for a first-column cell of a modified row or
a first-row cell of a modified column, else the added/removed format when
one is supplied and `args.no_highlight_added_removed` is `True` (i.e. `-X`
was **not** passed), else the do-nothing format.  Returns the format and the
updated sets (the Python function mutates the sets in place). -/
def getFormat (args : Args) (row col : Nat) (modRows modCols : Finset Nat)
    (fDoNothing fHighlight : Fmt) (doUpdate : Bool)
    (addedDeletedFmt : Option Fmt) : Fmt × Finset Nat × Finset Nat :=
  let modRows' := if doUpdate then insert row modRows else modRows
  let modCols' := if doUpdate then insert col modCols else modCols
  let fmt :=
    if (col = 0 ∧ row ∈ modRows') ∨ (row = 0 ∧ col ∈ modCols') then fHighlight
    else if addedDeletedFmt.isSome ∧ args.no_highlight_added_removed then
      addedDeletedFmt.getD fDoNothing
    else fDoNothing
  (fmt, modRows', modCols')

/-- One write to the output worksheet: `plainW` models `out_ws.write` of a
string value, `richW` models `out_ws.write_rich_string` of the run list,
and `listReprW` models the fallback `out_ws.write(o_r, o_c, str(rich_text),
...)` — Python would write the `str()` rendering of the run list there; the
rendering is presentational and kept abstract (the run list is recorded). -/
inductive WriteAct where
  | plainW (r c : Nat) (v : Str) (f : Fmt)
  | richW (r c : Nat) (runs : List (Run Char)) (f : Fmt)
  | listReprW (r c : Nat) (runs : List (Run Char)) (f : Fmt)
deriving DecidableEq

def WriteAct.rowOf : WriteAct → Nat
  | .plainW r _ _ _ => r
  | .richW r _ _ _ => r
  | .listReprW r _ _ _ => r

def WriteAct.colOf : WriteAct → Nat
  | .plainW _ c _ _ => c
  | .richW _ c _ _ => c
  | .listReprW _ c _ _ => c

def WriteAct.fmtOf : WriteAct → Fmt
  | .plainW _ _ _ f => f
  | .richW _ _ _ f => f
  | .listReprW _ _ _ f => f

/-- The result of one `compare_cell` call: the emitted writes (at most one),
the returned modified flag, and the updated modified-row/column sets. -/
structure CellRes where
  writes : List WriteAct
  changed : Bool
  modRows : Finset Nat
  modCols : Finset Nat
deriving DecidableEq

/-- The `v1`/`v2` computation at the top of `compare_cell`: `""` when the
row or column alignment index is the `-1` placeholder, else the stringified
cell value (`""` for `None`); `+1` converts the 0-based alignment index to
the 1-based accessor. -/
def v1of (ws : Ws) (r c : Int) : Str :=
  if r = -1 ∨ c = -1 then []
  else
    match ws.cell (r + 1).toNat (c + 1).toNat with
    | some s => s
    | none => []

/-- `compare_cell` (xlsxDiff.py lines 102-201). -/
def compareCell (args : Args) (ws1 ws2 : Ws) (oR oC : Nat)
    (i1r i1c i2r i2c : Int) (modRows modCols : Finset Nat) : CellRes :=
  let v1 := v1of ws1 i1r i1c
  let v2 := v1of ws2 i2r i2c
  if v1 = [] ∧ v2 = [] ∧ 0 ≤ i1r ∧ 0 ≤ i1c ∧ 0 ≤ i2r ∧ 0 ≤ i2c then
    -- both cells empty
    if args.noempty then ⟨[], false, modRows, modCols⟩
    else
      let r := getFormat args oR oC modRows modCols Fmt.f_equal_cell
        Fmt.f_equal_cell_modified false none
      ⟨[WriteAct.plainW oR oC v2 r.1], false, r.2.1, r.2.2⟩
  else if v1 = v2 ∧ 0 ≤ i1r ∧ 0 ≤ i1c ∧ 0 ≤ i2r ∧ 0 ≤ i2c then
    -- both cells equal, but not empty
    let r := getFormat args oR oC modRows modCols Fmt.f_equal_cell
      Fmt.f_equal_cell_modified false none
    ⟨[WriteAct.plainW oR oC v1 r.1], false, r.2.1, r.2.2⟩
  else if (i1c = -1 ∧ i2r = -1) ∨ (i1r = -1 ∧ i2c = -1) then
    -- added and removed cross: "synthetic" cell
    let r := getFormat args oR oC modRows modCols Fmt.f_equal_cell
      Fmt.f_equal_cell_modified false none
    ⟨[WriteAct.plainW oR oC [] r.1], false, r.2.1, r.2.2⟩
  else if i1c = -1 ∨ i1r = -1 then
    -- column/row added
    let r := getFormat args oR oC modRows modCols Fmt.f_added
      Fmt.f_added_cell_modified args.highlight (some Fmt.f_added_cell_highlight)
    ⟨[WriteAct.plainW oR oC v2 r.1], true, r.2.1, r.2.2⟩
  else if i2c = -1 ∨ i2r = -1 then
    -- column/row removed
    let r := getFormat args oR oC modRows modCols Fmt.f_removed
      Fmt.f_removed_cell_modified args.highlight
      (some Fmt.f_removed_cell_highlight)
    ⟨[WriteAct.plainW oR oC v1 r.1], true, r.2.1, r.2.2⟩
  else if v1 = [] then
    -- cell value added
    let r := getFormat args oR oC modRows modCols Fmt.f_added
      Fmt.f_added_cell_modified args.highlight none
    ⟨[WriteAct.plainW oR oC v2 r.1], true, r.2.1, r.2.2⟩
  else if v2 = [] then
    -- cell value removed
    let r := getFormat args oR oC modRows modCols Fmt.f_removed
      Fmt.f_removed_cell_modified args.highlight none
    ⟨[WriteAct.plainW oR oC v1 r.1], true, r.2.1, r.2.2⟩
  else if isRich v1 v2 then
    -- detailed character diff, some non-equal opcode
    let r := getFormat args oR oC modRows modCols Fmt.f_simple
      Fmt.f_modified_cell args.highlight none
    ⟨[WriteAct.richW oR oC (cellRichText v1 v2) r.1], true, r.2.1, r.2.2⟩
  else
    -- fallback: all opcodes equal (should not happen), plain write of
    -- str(rich_text), return False
    let r := getFormat args oR oC modRows modCols Fmt.f_simple
      Fmt.f_modified_cell args.highlight none
    ⟨[WriteAct.listReprW oR oC (cellRichText v1 v2) r.1], false, r.2.1, r.2.2⟩

/-- Pure mirror of `compare_cell`'s branch cascade, naming the branch that a
given cell takes (independent of the output coordinates, the modified sets
and the options). -/
inductive CellClass where
  | emptyEqual
  | equalCells
  | synthetic
  | addedStructural
  | removedStructural
  | addedValue
  | removedValue
  | modifiedRich
  | modifiedFallback
deriving DecidableEq

def classifyCell (ws1 ws2 : Ws) (i1r i1c i2r i2c : Int) : CellClass :=
  let v1 := v1of ws1 i1r i1c
  let v2 := v1of ws2 i2r i2c
  if v1 = [] ∧ v2 = [] ∧ 0 ≤ i1r ∧ 0 ≤ i1c ∧ 0 ≤ i2r ∧ 0 ≤ i2c then
    CellClass.emptyEqual
  else if v1 = v2 ∧ 0 ≤ i1r ∧ 0 ≤ i1c ∧ 0 ≤ i2r ∧ 0 ≤ i2c then
    CellClass.equalCells
  else if (i1c = -1 ∧ i2r = -1) ∨ (i1r = -1 ∧ i2c = -1) then
    CellClass.synthetic
  else if i1c = -1 ∨ i1r = -1 then CellClass.addedStructural
  else if i2c = -1 ∨ i2r = -1 then CellClass.removedStructural
  else if v1 = [] then CellClass.addedValue
  else if v2 = [] then CellClass.removedValue
  else if isRich v1 v2 then CellClass.modifiedRich
  else CellClass.modifiedFallback

/-- The combined "touched" format used for a cell of the given class when
the header-highlight condition of `get_format` fires. -/
def touchedFmt : CellClass → Fmt
  | CellClass.emptyEqual | CellClass.equalCells | CellClass.synthetic =>
    Fmt.f_equal_cell_modified
  | CellClass.addedStructural | CellClass.addedValue =>
    Fmt.f_added_cell_modified
  | CellClass.removedStructural | CellClass.removedValue =>
    Fmt.f_removed_cell_modified
  | CellClass.modifiedRich | CellClass.modifiedFallback => Fmt.f_modified_cell

/-- The format used for a cell of the given class when the header-highlight
condition does not fire. -/
def plainFmt (args : Args) : CellClass → Fmt
  | CellClass.emptyEqual | CellClass.equalCells | CellClass.synthetic =>
    Fmt.f_equal_cell
  | CellClass.addedStructural =>
    if args.no_highlight_added_removed then Fmt.f_added_cell_highlight
    else Fmt.f_added
  | CellClass.removedStructural =>
    if args.no_highlight_added_removed then Fmt.f_removed_cell_highlight
    else Fmt.f_removed
  | CellClass.addedValue => Fmt.f_added
  | CellClass.removedValue => Fmt.f_removed
  | CellClass.modifiedRich | CellClass.modifiedFallback => Fmt.f_simple

/-- The branch condition under which `compare_cell` passes
`do_update_modified_columns_rows_sets = args.highlight` to `get_format`:
everything after the empty/equal/synthetic branches. -/
def marksCond (ws1 ws2 : Ws) (i1r i1c i2r i2c : Int) : Prop :=
  ¬ (v1of ws1 i1r i1c = [] ∧ v1of ws2 i2r i2c = [] ∧
      0 ≤ i1r ∧ 0 ≤ i1c ∧ 0 ≤ i2r ∧ 0 ≤ i2c) ∧
  ¬ (v1of ws1 i1r i1c = v1of ws2 i2r i2c ∧
      0 ≤ i1r ∧ 0 ≤ i1c ∧ 0 ≤ i2r ∧ 0 ≤ i2c) ∧
  ¬ ((i1c = -1 ∧ i2r = -1) ∨ (i1r = -1 ∧ i2c = -1))

instance marksCondDec (ws1 ws2 : Ws) (i1r i1c i2r i2c : Int) :
    Decidable (marksCond ws1 ws2 i1r i1c i2r i2c) := by
  unfold marksCond
  exact inferInstance

lemma ite_and_of_right {β : Type} {p q : Prop} [Decidable p]
    [Decidable (p ∧ q)] (hq : q) (x y : β) :
    (if p ∧ q then x else y) = if p then x else y := by
  by_cases hp : p
  · rw [if_pos ⟨hp, hq⟩, if_pos hp]
  · rw [if_neg (fun hx => hp hx.1), if_neg hp]

section CompareCellBranches

variable (args : Args) (ws1 ws2 : Ws) (oR oC : Nat) (i1r i1c i2r i2c : Int)
  (modRows modCols : Finset Nat)

lemma compareCell_emptySkip
    (hc1 : v1of ws1 i1r i1c = [] ∧ v1of ws2 i2r i2c = [] ∧
      0 ≤ i1r ∧ 0 ≤ i1c ∧ 0 ≤ i2r ∧ 0 ≤ i2c)
    (hne : args.noempty = true) :
    compareCell args ws1 ws2 oR oC i1r i1c i2r i2c modRows modCols =
      ⟨[], false, modRows, modCols⟩ := by
  unfold compareCell
  dsimp only
  rw [if_pos hc1, if_pos hne]

lemma compareCell_emptyWrite
    (hc1 : v1of ws1 i1r i1c = [] ∧ v1of ws2 i2r i2c = [] ∧
      0 ≤ i1r ∧ 0 ≤ i1c ∧ 0 ≤ i2r ∧ 0 ≤ i2c)
    (hne : ¬ args.noempty = true) :
    compareCell args ws1 ws2 oR oC i1r i1c i2r i2c modRows modCols =
      ⟨[WriteAct.plainW oR oC (v1of ws2 i2r i2c)
          (if (oC = 0 ∧ oR ∈ modRows) ∨ (oR = 0 ∧ oC ∈ modCols) then
            Fmt.f_equal_cell_modified else Fmt.f_equal_cell)],
        false, modRows, modCols⟩ := by
  unfold compareCell getFormat
  dsimp only
  rw [if_pos hc1, if_neg hne]
  simp

lemma compareCell_equalCells
    (hc1 : ¬ (v1of ws1 i1r i1c = [] ∧ v1of ws2 i2r i2c = [] ∧
      0 ≤ i1r ∧ 0 ≤ i1c ∧ 0 ≤ i2r ∧ 0 ≤ i2c))
    (hc2 : v1of ws1 i1r i1c = v1of ws2 i2r i2c ∧
      0 ≤ i1r ∧ 0 ≤ i1c ∧ 0 ≤ i2r ∧ 0 ≤ i2c) :
    compareCell args ws1 ws2 oR oC i1r i1c i2r i2c modRows modCols =
      ⟨[WriteAct.plainW oR oC (v1of ws1 i1r i1c)
          (if (oC = 0 ∧ oR ∈ modRows) ∨ (oR = 0 ∧ oC ∈ modCols) then
            Fmt.f_equal_cell_modified else Fmt.f_equal_cell)],
        false, modRows, modCols⟩ := by
  unfold compareCell getFormat
  dsimp only
  rw [if_neg hc1, if_pos hc2]
  simp

lemma compareCell_synthetic
    (hc1 : ¬ (v1of ws1 i1r i1c = [] ∧ v1of ws2 i2r i2c = [] ∧
      0 ≤ i1r ∧ 0 ≤ i1c ∧ 0 ≤ i2r ∧ 0 ≤ i2c))
    (hc2 : ¬ (v1of ws1 i1r i1c = v1of ws2 i2r i2c ∧
      0 ≤ i1r ∧ 0 ≤ i1c ∧ 0 ≤ i2r ∧ 0 ≤ i2c))
    (hc3 : (i1c = -1 ∧ i2r = -1) ∨ (i1r = -1 ∧ i2c = -1)) :
    compareCell args ws1 ws2 oR oC i1r i1c i2r i2c modRows modCols =
      ⟨[WriteAct.plainW oR oC []
          (if (oC = 0 ∧ oR ∈ modRows) ∨ (oR = 0 ∧ oC ∈ modCols) then
            Fmt.f_equal_cell_modified else Fmt.f_equal_cell)],
        false, modRows, modCols⟩ := by
  unfold compareCell getFormat
  dsimp only
  rw [if_neg hc1, if_neg hc2, if_pos hc3]
  simp

lemma compareCell_addedStructural
    (hm : marksCond ws1 ws2 i1r i1c i2r i2c)
    (hc4 : i1c = -1 ∨ i1r = -1) :
    compareCell args ws1 ws2 oR oC i1r i1c i2r i2c modRows modCols =
      ⟨[WriteAct.plainW oR oC (v1of ws2 i2r i2c)
          (if (oC = 0 ∧ oR ∈ (if args.highlight = true then
                insert oR modRows else modRows)) ∨
              (oR = 0 ∧ oC ∈ (if args.highlight = true then
                insert oC modCols else modCols)) then
            Fmt.f_added_cell_modified
          else if args.no_highlight_added_removed = true then
            Fmt.f_added_cell_highlight
          else Fmt.f_added)],
        true,
        (if args.highlight = true then insert oR modRows else modRows),
        (if args.highlight = true then insert oC modCols else modCols)⟩ := by
  unfold compareCell getFormat
  dsimp only
  rw [if_neg hm.1, if_neg hm.2.1, if_neg hm.2.2, if_pos hc4]
  simp

lemma compareCell_removedStructural
    (hm : marksCond ws1 ws2 i1r i1c i2r i2c)
    (hc4 : ¬ (i1c = -1 ∨ i1r = -1))
    (hc5 : i2c = -1 ∨ i2r = -1) :
    compareCell args ws1 ws2 oR oC i1r i1c i2r i2c modRows modCols =
      ⟨[WriteAct.plainW oR oC (v1of ws1 i1r i1c)
          (if (oC = 0 ∧ oR ∈ (if args.highlight = true then
                insert oR modRows else modRows)) ∨
              (oR = 0 ∧ oC ∈ (if args.highlight = true then
                insert oC modCols else modCols)) then
            Fmt.f_removed_cell_modified
          else if args.no_highlight_added_removed = true then
            Fmt.f_removed_cell_highlight
          else Fmt.f_removed)],
        true,
        (if args.highlight = true then insert oR modRows else modRows),
        (if args.highlight = true then insert oC modCols else modCols)⟩ := by
  unfold compareCell getFormat
  dsimp only
  rw [if_neg hm.1, if_neg hm.2.1, if_neg hm.2.2, if_neg hc4, if_pos hc5]
  simp

lemma compareCell_addedValue
    (hm : marksCond ws1 ws2 i1r i1c i2r i2c)
    (hc4 : ¬ (i1c = -1 ∨ i1r = -1))
    (hc5 : ¬ (i2c = -1 ∨ i2r = -1))
    (hc6 : v1of ws1 i1r i1c = []) :
    compareCell args ws1 ws2 oR oC i1r i1c i2r i2c modRows modCols =
      ⟨[WriteAct.plainW oR oC (v1of ws2 i2r i2c)
          (if (oC = 0 ∧ oR ∈ (if args.highlight = true then
                insert oR modRows else modRows)) ∨
              (oR = 0 ∧ oC ∈ (if args.highlight = true then
                insert oC modCols else modCols)) then
            Fmt.f_added_cell_modified
          else Fmt.f_added)],
        true,
        (if args.highlight = true then insert oR modRows else modRows),
        (if args.highlight = true then insert oC modCols else modCols)⟩ := by
  unfold compareCell getFormat
  dsimp only
  rw [if_neg hm.1, if_neg hm.2.1, if_neg hm.2.2, if_neg hc4, if_neg hc5,
    if_pos hc6]
  simp

lemma compareCell_removedValue
    (hm : marksCond ws1 ws2 i1r i1c i2r i2c)
    (hc4 : ¬ (i1c = -1 ∨ i1r = -1))
    (hc5 : ¬ (i2c = -1 ∨ i2r = -1))
    (hc6 : ¬ v1of ws1 i1r i1c = [])
    (hc7 : v1of ws2 i2r i2c = []) :
    compareCell args ws1 ws2 oR oC i1r i1c i2r i2c modRows modCols =
      ⟨[WriteAct.plainW oR oC (v1of ws1 i1r i1c)
          (if (oC = 0 ∧ oR ∈ (if args.highlight = true then
                insert oR modRows else modRows)) ∨
              (oR = 0 ∧ oC ∈ (if args.highlight = true then
                insert oC modCols else modCols)) then
            Fmt.f_removed_cell_modified
          else Fmt.f_removed)],
        true,
        (if args.highlight = true then insert oR modRows else modRows),
        (if args.highlight = true then insert oC modCols else modCols)⟩ := by
  unfold compareCell getFormat
  dsimp only
  rw [if_neg hm.1, if_neg hm.2.1, if_neg hm.2.2, if_neg hc4, if_neg hc5,
    if_neg hc6, if_pos hc7]
  simp

lemma compareCell_modifiedRich
    (hm : marksCond ws1 ws2 i1r i1c i2r i2c)
    (hc4 : ¬ (i1c = -1 ∨ i1r = -1))
    (hc5 : ¬ (i2c = -1 ∨ i2r = -1))
    (hc6 : ¬ v1of ws1 i1r i1c = [])
    (hc7 : ¬ v1of ws2 i2r i2c = [])
    (hc8 : isRich (v1of ws1 i1r i1c) (v1of ws2 i2r i2c) = true) :
    compareCell args ws1 ws2 oR oC i1r i1c i2r i2c modRows modCols =
      ⟨[WriteAct.richW oR oC
          (cellRichText (v1of ws1 i1r i1c) (v1of ws2 i2r i2c))
          (if (oC = 0 ∧ oR ∈ (if args.highlight = true then
                insert oR modRows else modRows)) ∨
              (oR = 0 ∧ oC ∈ (if args.highlight = true then
                insert oC modCols else modCols)) then
            Fmt.f_modified_cell
          else Fmt.f_simple)],
        true,
        (if args.highlight = true then insert oR modRows else modRows),
        (if args.highlight = true then insert oC modCols else modCols)⟩ := by
  unfold compareCell getFormat
  dsimp only
  rw [if_neg hm.1, if_neg hm.2.1, if_neg hm.2.2, if_neg hc4, if_neg hc5,
    if_neg hc6, if_neg hc7, if_pos hc8]
  simp

lemma compareCell_modifiedFallback
    (hm : marksCond ws1 ws2 i1r i1c i2r i2c)
    (hc4 : ¬ (i1c = -1 ∨ i1r = -1))
    (hc5 : ¬ (i2c = -1 ∨ i2r = -1))
    (hc6 : ¬ v1of ws1 i1r i1c = [])
    (hc7 : ¬ v1of ws2 i2r i2c = [])
    (hc8 : ¬ isRich (v1of ws1 i1r i1c) (v1of ws2 i2r i2c) = true) :
    compareCell args ws1 ws2 oR oC i1r i1c i2r i2c modRows modCols =
      ⟨[WriteAct.listReprW oR oC
          (cellRichText (v1of ws1 i1r i1c) (v1of ws2 i2r i2c))
          (if (oC = 0 ∧ oR ∈ (if args.highlight = true then
                insert oR modRows else modRows)) ∨
              (oR = 0 ∧ oC ∈ (if args.highlight = true then
                insert oC modCols else modCols)) then
            Fmt.f_modified_cell
          else Fmt.f_simple)],
        false,
        (if args.highlight = true then insert oR modRows else modRows),
        (if args.highlight = true then insert oC modCols else modCols)⟩ := by
  unfold compareCell getFormat
  dsimp only
  rw [if_neg hm.1, if_neg hm.2.1, if_neg hm.2.2, if_neg hc4, if_neg hc5,
    if_neg hc6, if_neg hc7, if_neg hc8]
  simp

end CompareCellBranches

/-- Master characterisation of one `compare_cell` call: the modified sets
grow by exactly the cell's own coordinates when the cell takes a branch
that updates them and header highlighting is on; every write carries the
call's output coordinates; and the written format is the touched format of
the cell's class when the `get_format` header condition fires on the
updated sets, else the plain format. -/
lemma compareCell_spec (args : Args) (ws1 ws2 : Ws) (oR oC : Nat)
    (i1r i1c i2r i2c : Int) (modRows modCols : Finset Nat) :
    (compareCell args ws1 ws2 oR oC i1r i1c i2r i2c modRows modCols).modRows =
      (if args.highlight = true ∧ marksCond ws1 ws2 i1r i1c i2r i2c then
        insert oR modRows else modRows) ∧
    (compareCell args ws1 ws2 oR oC i1r i1c i2r i2c modRows modCols).modCols =
      (if args.highlight = true ∧ marksCond ws1 ws2 i1r i1c i2r i2c then
        insert oC modCols else modCols) ∧
    ∀ w ∈ (compareCell args ws1 ws2 oR oC i1r i1c i2r i2c
        modRows modCols).writes,
      w.rowOf = oR ∧ w.colOf = oC ∧
      w.fmtOf =
        (if (oC = 0 ∧ oR ∈ (compareCell args ws1 ws2 oR oC i1r i1c i2r i2c
              modRows modCols).modRows) ∨
            (oR = 0 ∧ oC ∈ (compareCell args ws1 ws2 oR oC i1r i1c i2r i2c
              modRows modCols).modCols) then
          touchedFmt (classifyCell ws1 ws2 i1r i1c i2r i2c)
        else plainFmt args (classifyCell ws1 ws2 i1r i1c i2r i2c)) := by
  by_cases hc1 : v1of ws1 i1r i1c = [] ∧ v1of ws2 i2r i2c = [] ∧
      0 ≤ i1r ∧ 0 ≤ i1c ∧ 0 ≤ i2r ∧ 0 ≤ i2c
  · have hm : ¬ (args.highlight = true ∧ marksCond ws1 ws2 i1r i1c i2r i2c) :=
      fun hx => hx.2.1 hc1
    have hcl : classifyCell ws1 ws2 i1r i1c i2r i2c = CellClass.emptyEqual := by
      unfold classifyCell
      dsimp only
      rw [if_pos hc1]
    by_cases hne : args.noempty = true
    · rw [compareCell_emptySkip args ws1 ws2 oR oC i1r i1c i2r i2c modRows
        modCols hc1 hne, if_neg hm, if_neg hm]
      refine ⟨rfl, rfl, ?_⟩
      intro w hw
      simp at hw
    · rw [compareCell_emptyWrite args ws1 ws2 oR oC i1r i1c i2r i2c modRows
        modCols hc1 hne, if_neg hm, if_neg hm, hcl]
      refine ⟨rfl, rfl, ?_⟩
      intro w hw
      simp only [List.mem_singleton] at hw
      subst hw
      exact ⟨rfl, rfl, rfl⟩
  · by_cases hc2 : v1of ws1 i1r i1c = v1of ws2 i2r i2c ∧
        0 ≤ i1r ∧ 0 ≤ i1c ∧ 0 ≤ i2r ∧ 0 ≤ i2c
    · have hm : ¬ (args.highlight = true ∧
          marksCond ws1 ws2 i1r i1c i2r i2c) := fun hx => hx.2.2.1 hc2
      have hcl : classifyCell ws1 ws2 i1r i1c i2r i2c =
          CellClass.equalCells := by
        unfold classifyCell
        dsimp only
        rw [if_neg hc1, if_pos hc2]
      rw [compareCell_equalCells args ws1 ws2 oR oC i1r i1c i2r i2c modRows
        modCols hc1 hc2, if_neg hm, if_neg hm, hcl]
      refine ⟨rfl, rfl, ?_⟩
      intro w hw
      simp only [List.mem_singleton] at hw
      subst hw
      exact ⟨rfl, rfl, rfl⟩
    · by_cases hc3 : (i1c = -1 ∧ i2r = -1) ∨ (i1r = -1 ∧ i2c = -1)
      · have hm : ¬ (args.highlight = true ∧
            marksCond ws1 ws2 i1r i1c i2r i2c) := fun hx => hx.2.2.2 hc3
        have hcl : classifyCell ws1 ws2 i1r i1c i2r i2c =
            CellClass.synthetic := by
          unfold classifyCell
          dsimp only
          rw [if_neg hc1, if_neg hc2, if_pos hc3]
        rw [compareCell_synthetic args ws1 ws2 oR oC i1r i1c i2r i2c modRows
          modCols hc1 hc2 hc3, if_neg hm, if_neg hm, hcl]
        refine ⟨rfl, rfl, ?_⟩
        intro w hw
        simp only [List.mem_singleton] at hw
        subst hw
        exact ⟨rfl, rfl, rfl⟩
      · have hmk : marksCond ws1 ws2 i1r i1c i2r i2c := ⟨hc1, hc2, hc3⟩
        by_cases hc4 : i1c = -1 ∨ i1r = -1
        · have hcl : classifyCell ws1 ws2 i1r i1c i2r i2c =
              CellClass.addedStructural := by
            unfold classifyCell
            dsimp only
            rw [if_neg hc1, if_neg hc2, if_neg hc3, if_pos hc4]
          rw [compareCell_addedStructural args ws1 ws2 oR oC i1r i1c i2r i2c
            modRows modCols hmk hc4, hcl]
          simp only [ite_and_of_right hmk]
          refine ⟨trivial, trivial, ?_⟩
          intro w hw
          simp only [List.mem_singleton] at hw
          subst hw
          exact ⟨rfl, rfl, rfl⟩
        · by_cases hc5 : i2c = -1 ∨ i2r = -1
          · have hcl : classifyCell ws1 ws2 i1r i1c i2r i2c =
                CellClass.removedStructural := by
              unfold classifyCell
              dsimp only
              rw [if_neg hc1, if_neg hc2, if_neg hc3, if_neg hc4, if_pos hc5]
            rw [compareCell_removedStructural args ws1 ws2 oR oC i1r i1c i2r
              i2c modRows modCols hmk hc4 hc5, hcl]
            simp only [ite_and_of_right hmk]
            refine ⟨trivial, trivial, ?_⟩
            intro w hw
            simp only [List.mem_singleton] at hw
            subst hw
            exact ⟨rfl, rfl, rfl⟩
          · by_cases hc6 : v1of ws1 i1r i1c = []
            · have hcl : classifyCell ws1 ws2 i1r i1c i2r i2c =
                  CellClass.addedValue := by
                unfold classifyCell
                dsimp only
                rw [if_neg hc1, if_neg hc2, if_neg hc3, if_neg hc4, if_neg hc5,
                  if_pos hc6]
              rw [compareCell_addedValue args ws1 ws2 oR oC i1r i1c i2r i2c
                modRows modCols hmk hc4 hc5 hc6, hcl]
              simp only [ite_and_of_right hmk]
              refine ⟨trivial, trivial, ?_⟩
              intro w hw
              simp only [List.mem_singleton] at hw
              subst hw
              exact ⟨rfl, rfl, rfl⟩
            · by_cases hc7 : v1of ws2 i2r i2c = []
              · have hcl : classifyCell ws1 ws2 i1r i1c i2r i2c =
                    CellClass.removedValue := by
                  unfold classifyCell
                  dsimp only
                  rw [if_neg hc1, if_neg hc2, if_neg hc3, if_neg hc4,
                    if_neg hc5, if_neg hc6, if_pos hc7]
                rw [compareCell_removedValue args ws1 ws2 oR oC i1r i1c i2r i2c
                  modRows modCols hmk hc4 hc5 hc6 hc7, hcl]
                simp only [ite_and_of_right hmk]
                refine ⟨trivial, trivial, ?_⟩
                intro w hw
                simp only [List.mem_singleton] at hw
                subst hw
                exact ⟨rfl, rfl, rfl⟩
              · by_cases hc8 : isRich (v1of ws1 i1r i1c)
                    (v1of ws2 i2r i2c) = true
                · have hcl : classifyCell ws1 ws2 i1r i1c i2r i2c =
                      CellClass.modifiedRich := by
                    unfold classifyCell
                    dsimp only
                    rw [if_neg hc1, if_neg hc2, if_neg hc3, if_neg hc4,
                      if_neg hc5, if_neg hc6, if_neg hc7, if_pos hc8]
                  rw [compareCell_modifiedRich args ws1 ws2 oR oC i1r i1c i2r
                    i2c modRows modCols hmk hc4 hc5 hc6 hc7 hc8, hcl]
                  simp only [ite_and_of_right hmk]
                  refine ⟨trivial, trivial, ?_⟩
                  intro w hw
                  simp only [List.mem_singleton] at hw
                  subst hw
                  exact ⟨rfl, rfl, rfl⟩
                · have hcl : classifyCell ws1 ws2 i1r i1c i2r i2c =
                      CellClass.modifiedFallback := by
                    unfold classifyCell
                    dsimp only
                    rw [if_neg hc1, if_neg hc2, if_neg hc3, if_neg hc4,
                      if_neg hc5, if_neg hc6, if_neg hc7, if_neg hc8]
                  rw [compareCell_modifiedFallback args ws1 ws2 oR oC i1r i1c
                    i2r i2c modRows modCols hmk hc4 hc5 hc6 hc7 hc8, hcl]
                  simp only [ite_and_of_right hmk]
                  refine ⟨trivial, trivial, ?_⟩
                  intro w hw
                  simp only [List.mem_singleton] at hw
                  subst hw
                  exact ⟨rfl, rfl, rfl⟩

/-! ## compare_tab -/

/-- Accumulated state of `compare_tab`: the emitted writes, the
`is_data_in_tab_modified` flag, and the modified row/column sets. -/
structure TabRes where
  writes : List WriteAct
  modified : Bool
  modRows : Finset Nat
  modCols : Finset Nat

/-- One inner-loop step of `compare_tab` (xlsxDiff.py lines 321-328): a
single `compare_cell` call for the current (row entry, column entry) pair;
`rowE = (ro, r1, r2)` and `colE = (co, c1, c2)`. -/
def rowStep (args : Args) (ws1 ws2 : Ws) (colE : Nat × Int × Int)
    (st : TabRes) (rowE : Nat × Int × Int) : TabRes :=
  let res := compareCell args ws1 ws2 rowE.1 colE.1 rowE.2.1 colE.2.1
    rowE.2.2 colE.2.2 st.modRows st.modCols
  ⟨st.writes ++ res.writes, res.changed || st.modified, res.modRows,
    res.modCols⟩

/-- The inner row loop of `compare_tab` for one output column. -/
def colStep (args : Args) (ws1 ws2 : Ws) (rowRanges : List (Nat × Int × Int))
    (st : TabRes) (colE : Nat × Int × Int) : TabRes :=
  rowRanges.foldl (rowStep args ws1 ws2 colE) st

/-- `compare_tab` (lines 299-335): the outer column loop around the inner
row loop, starting from empty modified sets.  (The column-width setting,
progress logging, gray tab colour and autofilter are presentational and not
modelled.) -/
def compareTab (args : Args) (ws1 ws2 : Ws)
    (colRanges rowRanges : List (Nat × Int × Int)) : TabRes :=
  colRanges.foldl (colStep args ws1 ws2 rowRanges) ⟨[], false, ∅, ∅⟩

/-- Whether the cell at (row entry, column entry) takes a set-updating
branch of `compare_cell`. -/
def marksPair (ws1 ws2 : Ws) (rowE colE : Nat × Int × Int) : Prop :=
  marksCond ws1 ws2 rowE.2.1 colE.2.1 rowE.2.2 colE.2.2

instance marksPairDec (ws1 ws2 : Ws) (rowE colE : Nat × Int × Int) :
    Decidable (marksPair ws1 ws2 rowE colE) := by
  unfold marksPair
  exact inferInstance

lemma rowStep_writes (args : Args) (ws1 ws2 : Ws) (colE : Nat × Int × Int)
    (st : TabRes) (rowE : Nat × Int × Int) :
    (rowStep args ws1 ws2 colE st rowE).writes =
      st.writes ++ (compareCell args ws1 ws2 rowE.1 colE.1 rowE.2.1 colE.2.1
        rowE.2.2 colE.2.2 st.modRows st.modCols).writes := rfl

lemma rowStep_modRows (args : Args) (ws1 ws2 : Ws) (colE : Nat × Int × Int)
    (st : TabRes) (rowE : Nat × Int × Int) :
    (rowStep args ws1 ws2 colE st rowE).modRows =
      (if args.highlight = true ∧ marksPair ws1 ws2 rowE colE then
        insert rowE.1 st.modRows else st.modRows) := by
  unfold rowStep marksPair
  dsimp only
  exact (compareCell_spec args ws1 ws2 rowE.1 colE.1 rowE.2.1 colE.2.1
    rowE.2.2 colE.2.2 st.modRows st.modCols).1

lemma rowStep_modCols (args : Args) (ws1 ws2 : Ws) (colE : Nat × Int × Int)
    (st : TabRes) (rowE : Nat × Int × Int) :
    (rowStep args ws1 ws2 colE st rowE).modCols =
      (if args.highlight = true ∧ marksPair ws1 ws2 rowE colE then
        insert colE.1 st.modCols else st.modCols) := by
  unfold rowStep marksPair
  dsimp only
  exact (compareCell_spec args ws1 ws2 rowE.1 colE.1 rowE.2.1 colE.2.1
    rowE.2.2 colE.2.2 st.modRows st.modCols).2.1

lemma foldl_rowStep_modCols_mem (args : Args) (ws1 ws2 : Ws)
    (cE : Nat × Int × Int) :
    ∀ (rows : List (Nat × Int × Int)) (st : TabRes) (c : Nat),
      c ∈ (rows.foldl (rowStep args ws1 ws2 cE) st).modCols ↔
        c ∈ st.modCols ∨ (args.highlight = true ∧ c = cE.1 ∧
          ∃ rE ∈ rows, marksPair ws1 ws2 rE cE) := by
  intro rows
  induction rows with
  | nil =>
    intro st c
    simp
  | cons rE rows ih =>
    intro st c
    rw [List.foldl_cons, ih, rowStep_modCols]
    by_cases h1 : args.highlight = true ∧ marksPair ws1 ws2 rE cE
    · rw [if_pos h1]
      simp only [Finset.mem_insert, List.mem_cons]
      constructor
      · rintro ((hc | hc) | ⟨hh, hc, r', hr', hm⟩)
        · exact Or.inr ⟨h1.1, hc, rE, Or.inl rfl, h1.2⟩
        · exact Or.inl hc
        · exact Or.inr ⟨hh, hc, r', Or.inr hr', hm⟩
      · rintro (hc | ⟨hh, hc, r', hr', hm⟩)
        · exact Or.inl (Or.inr hc)
        · exact Or.inl (Or.inl hc)
    · rw [if_neg h1]
      simp only [List.mem_cons]
      constructor
      · rintro (hc | ⟨hh, hc, r', hr', hm⟩)
        · exact Or.inl hc
        · exact Or.inr ⟨hh, hc, r', Or.inr hr', hm⟩
      · rintro (hc | ⟨hh, hc, r', hr', hm⟩)
        · exact Or.inl hc
        · rcases hr' with hr' | hr'
          · exact absurd ⟨hh, hr' ▸ hm⟩ h1
          · exact Or.inr ⟨hh, hc, r', hr', hm⟩

lemma foldl_rowStep_modRows_mem (args : Args) (ws1 ws2 : Ws)
    (cE : Nat × Int × Int) :
    ∀ (rows : List (Nat × Int × Int)) (st : TabRes) (r : Nat),
      r ∈ (rows.foldl (rowStep args ws1 ws2 cE) st).modRows ↔
        r ∈ st.modRows ∨ (args.highlight = true ∧
          ∃ rE ∈ rows, rE.1 = r ∧ marksPair ws1 ws2 rE cE) := by
  intro rows
  induction rows with
  | nil =>
    intro st r
    simp
  | cons rE rows ih =>
    intro st r
    rw [List.foldl_cons, ih, rowStep_modRows]
    by_cases h1 : args.highlight = true ∧ marksPair ws1 ws2 rE cE
    · rw [if_pos h1]
      simp only [Finset.mem_insert, List.mem_cons]
      constructor
      · rintro ((hc | hc) | ⟨hh, r', hr', hre, hm⟩)
        · exact Or.inr ⟨h1.1, rE, Or.inl rfl, hc.symm, h1.2⟩
        · exact Or.inl hc
        · exact Or.inr ⟨hh, r', Or.inr hr', hre, hm⟩
      · rintro (hc | ⟨hh, r', hr', hre, hm⟩)
        · exact Or.inl (Or.inr hc)
        · rcases hr' with hr' | hr'
          · exact Or.inl (Or.inl (by rw [← hre, hr']))
          · exact Or.inr ⟨hh, r', hr', hre, hm⟩
    · rw [if_neg h1]
      simp only [List.mem_cons]
      constructor
      · rintro (hc | ⟨hh, r', hr', hre, hm⟩)
        · exact Or.inl hc
        · exact Or.inr ⟨hh, r', Or.inr hr', hre, hm⟩
      · rintro (hc | ⟨hh, r', hr', hre, hm⟩)
        · exact Or.inl hc
        · rcases hr' with hr' | hr'
          · exact absurd ⟨hh, hr' ▸ hm⟩ h1
          · exact Or.inr ⟨hh, r', hr', hre, hm⟩

lemma foldl_rowStep_writes_mem (args : Args) (ws1 ws2 : Ws)
    (cE : Nat × Int × Int) :
    ∀ (rows : List (Nat × Int × Int)) (st : TabRes) (w : WriteAct),
      w ∈ (rows.foldl (rowStep args ws1 ws2 cE) st).writes →
        w ∈ st.writes ∨ (w.colOf = cE.1 ∧ ∃ rE ∈ rows, w.rowOf = rE.1) := by
  intro rows
  induction rows with
  | nil =>
    intro st w hw
    exact Or.inl hw
  | cons rE rows ih =>
    intro st w hw
    rcases ih _ w hw with h | h
    · rw [rowStep_writes] at h
      rcases List.mem_append.mp h with h1 | h1
      · exact Or.inl h1
      · right
        have hc := (compareCell_spec args ws1 ws2 rE.1 cE.1 rE.2.1 cE.2.1
          rE.2.2 cE.2.2 st.modRows st.modCols).2.2 w h1
        exact ⟨hc.2.1, rE, by simp, hc.1⟩
    · exact Or.inr ⟨h.1, h.2.choose, by
        obtain ⟨hmem, hrow⟩ := h.2.choose_spec
        exact List.mem_cons_of_mem _ hmem, h.2.choose_spec.2⟩

lemma foldl_colStep_modCols_mem (args : Args) (ws1 ws2 : Ws)
    (rowR : List (Nat × Int × Int)) :
    ∀ (cols : List (Nat × Int × Int)) (st : TabRes) (c : Nat),
      c ∈ (cols.foldl (colStep args ws1 ws2 rowR) st).modCols ↔
        c ∈ st.modCols ∨ (args.highlight = true ∧
          ∃ cE ∈ cols, cE.1 = c ∧ ∃ rE ∈ rowR, marksPair ws1 ws2 rE cE) := by
  intro cols
  induction cols with
  | nil =>
    intro st c
    simp
  | cons cE cols ih =>
    intro st c
    rw [List.foldl_cons, ih]
    unfold colStep
    rw [foldl_rowStep_modCols_mem]
    simp only [List.mem_cons]
    constructor
    · rintro ((hc | ⟨hh, hc, r', hr', hm⟩) | ⟨hh, c', hc', hce, r', hr', hm⟩)
      · exact Or.inl hc
      · exact Or.inr ⟨hh, cE, Or.inl rfl, hc.symm, r', hr', hm⟩
      · exact Or.inr ⟨hh, c', Or.inr hc', hce, r', hr', hm⟩
    · rintro (hc | ⟨hh, c', hc', hce, r', hr', hm⟩)
      · exact Or.inl (Or.inl hc)
      · rcases hc' with hc' | hc'
        · subst hc'
          exact Or.inl (Or.inr ⟨hh, hce.symm, r', hr', hm⟩)
        · exact Or.inr ⟨hh, c', hc', hce, r', hr', hm⟩

lemma foldl_colStep_modRows_mem (args : Args) (ws1 ws2 : Ws)
    (rowR : List (Nat × Int × Int)) :
    ∀ (cols : List (Nat × Int × Int)) (st : TabRes) (r : Nat),
      r ∈ (cols.foldl (colStep args ws1 ws2 rowR) st).modRows ↔
        r ∈ st.modRows ∨ (args.highlight = true ∧
          ∃ cE ∈ cols, ∃ rE ∈ rowR, rE.1 = r ∧ marksPair ws1 ws2 rE cE) := by
  intro cols
  induction cols with
  | nil =>
    intro st r
    simp
  | cons cE cols ih =>
    intro st r
    rw [List.foldl_cons, ih]
    unfold colStep
    rw [foldl_rowStep_modRows_mem]
    simp only [List.mem_cons]
    constructor
    · rintro ((hc | ⟨hh, r', hr', hre, hm⟩) | ⟨hh, c', hc', r', hr', hre, hm⟩)
      · exact Or.inl hc
      · exact Or.inr ⟨hh, cE, Or.inl rfl, r', hr', hre, hm⟩
      · exact Or.inr ⟨hh, c', Or.inr hc', r', hr', hre, hm⟩
    · rintro (hc | ⟨hh, c', hc', r', hr', hre, hm⟩)
      · exact Or.inl (Or.inl hc)
      · rcases hc' with hc' | hc'
        · subst hc'
          exact Or.inl (Or.inr ⟨hh, r', hr', hre, hm⟩)
        · exact Or.inr ⟨hh, c', hc', r', hr', hre, hm⟩

lemma foldl_colStep_writes_mem (args : Args) (ws1 ws2 : Ws)
    (rowR : List (Nat × Int × Int)) :
    ∀ (cols : List (Nat × Int × Int)) (st : TabRes) (w : WriteAct),
      w ∈ (cols.foldl (colStep args ws1 ws2 rowR) st).writes →
        w ∈ st.writes ∨
          ∃ cE ∈ cols, w.colOf = cE.1 ∧ ∃ rE ∈ rowR, w.rowOf = rE.1 := by
  intro cols
  induction cols with
  | nil =>
    intro st w hw
    exact Or.inl hw
  | cons cE cols ih =>
    intro st w hw
    rcases ih _ w hw with h | h
    · rcases foldl_rowStep_writes_mem args ws1 ws2 cE rowR st w h with h1 | h1
      · exact Or.inl h1
      · exact Or.inr ⟨cE, by simp, h1.1, h1.2⟩
    · obtain ⟨c', hc', hrest⟩ := h
      exact Or.inr ⟨c', List.mem_cons_of_mem _ hc', hrest⟩

/-! ## column_ranges / row_ranges and the index configuration -/

/-- Parsed index configuration: `icolumns` maps a sheet name to its index
column numbers (the `column_index_from_string` conversion of the configured
letters is part of the excluded CLI layer and is pre-applied), `irows` maps
a sheet name to its 1-based index row numbers.  A later duplicate `-c` or
`-r` entry overwrites the earlier one in the Python dicts; lookups here take
the first match, which coincides on the duplicate-free configurations the
CLI produces. -/
structure Config where
  icolumns : List (String × List Nat)
  irows : List (String × List Nat)

def Config.icolumnsFor (cfg : Config) (s : String) : Option (List Nat) :=
  cfg.icolumns.lookup s

def Config.irowsFor (cfg : Config) (s : String) : Option (List Nat) :=
  cfg.irows.lookup s

/-- The per-column comparison key of `column_ranges` (lines 252-258): the
configured index-row values of this column in order, each prefixed with
`"|"` (the separator distinguishes an empty field from a missing one). -/
def indexKeyCol (ws : Ws) (rows : List Nat) (col : Nat) : Str :=
  rows.foldl (fun s row =>
    match ws.cell row (col + 1) with
    | none => s ++ ['|']
    | some v => s ++ ['|'] ++ v) []

/-- The per-row comparison key of `row_ranges` (lines 283-289). -/
def indexKeyRow (ws : Ws) (cols : List Nat) (row : Nat) : Str :=
  cols.foldl (fun s c =>
    match ws.cell (row + 1) c with
    | none => s ++ ['|']
    | some v => s ++ ['|'] ++ v) []

/-- `column_ranges` (lines 237-265): with configured index rows for this
sheet, the keys of the first `max1` (resp. `max2`) columns are aligned with
`compare_2_lists_and_give_indexes_with_enumerator` (the Python loop runs
`col` over `range(max(max1, max2))` and appends to `data1` only while
`col < max1`, which is exactly the first `max1` columns, and likewise for
`data2`); without configuration, the positional identity
`[[i, i, i] for i in range(max(max1, max2)-1, -1, -1)]`. -/
def column_ranges (cfg : Config) (tabKey : String) (ws1 ws2 : Ws) :
    List (Nat × Int × Int) :=
  match cfg.irowsFor tabKey with
  | some rows =>
    compare2Lists ((List.range ws1.maxCol).map (indexKeyCol ws1 rows))
      ((List.range ws2.maxCol).map (indexKeyCol ws2 rows))
  | none =>
    (List.range (max ws1.maxCol ws2.maxCol)).reverse.map
      (fun i => (i, (i : Int), (i : Int)))

/-- `row_ranges` (lines 268-296), the transposed analogue keyed on the
configured index columns. -/
def row_ranges (cfg : Config) (tabKey : String) (ws1 ws2 : Ws) :
    List (Nat × Int × Int) :=
  match cfg.icolumnsFor tabKey with
  | some cols =>
    compare2Lists ((List.range ws1.maxRow).map (indexKeyRow ws1 cols))
      ((List.range ws2.maxRow).map (indexKeyRow ws2 cols))
  | none =>
    (List.range (max ws1.maxRow ws2.maxRow)).reverse.map
      (fun i => (i, (i : Int), (i : Int)))

/-! ## clone_tab, tab_names_dict, warnings and the main sheet loop -/

/-- `clone_tab` (lines 76-99): copy every cell of one input sheet to the
output with a uniform format, columns then rows in descending order.  (The
tab colour and column-width calls are presentational and not modelled.) -/
def cloneTab (ws : Ws) (fmt : Fmt) : List WriteAct :=
  (List.range ws.maxCol).reverse.flatMap (fun c =>
    (List.range ws.maxRow).reverse.map (fun r =>
      WriteAct.plainW r c
        (match ws.cell (r + 1) (c + 1) with
         | some v => v
         | none => []) fmt))

/-- One `tab_names_dict[i2_tab] = {2,}` assignment of the first loop (lines
400-401): Python dict assignment keeps the first-insertion key position and
overwrites the value. -/
def addTab2 (d : List (String × Bool × Bool)) (n : String) :
    List (String × Bool × Bool) :=
  if d.any (fun p => p.1 == n) then
    d.map (fun p => if p.1 = n then (p.1, false, true) else p)
  else d ++ [(n, false, true)]

/-- One step of the second loop (lines 402-406): `.add(1)` when the key is
present, else insert `{1,}`. -/
def addTab1 (d : List (String × Bool × Bool)) (n : String) :
    List (String × Bool × Bool) :=
  if d.any (fun p => p.1 == n) then
    d.map (fun p => if p.1 = n then (p.1, true, p.2.2) else p)
  else d ++ [(n, true, false)]

/-- `tab_names_dict` (lines 399-406) as an ordered association list, keys in
Python dict insertion order; the value `(b1, b2)` records presence in the
first/second workbook: `{1,2}` is `(true, true)`, `{2,}` is
`(false, true)`, `{1,}` is `(true, false)`. -/
def tabNamesDict (names1 names2 : List String) :
    List (String × Bool × Bool) :=
  names1.foldl addTab1 (names2.foldl addTab2 [])

/-- The configuration warning scan (lines 408-411): every configured sheet
name that is not a key of `tab_names_dict` is reported with a warning.
(Python iterates the set union of the two key sets, so only membership in
this list is meaningful, not order or multiplicity; `args.quiet` merely
suppresses the printing.) -/
def configWarnings (cfg : Config) (names1 names2 : List String) :
    List String :=
  (cfg.icolumns.map (fun p => p.1) ++ cfg.irows.map (fun p => p.1)).filter
    (fun n => ! (tabNamesDict names1 names2).any (fun p => p.1 == n))

lemma foldl_addTab2_eq (names2 : List String) :
    ∀ (d : List (String × Bool × Bool)),
      names2.Nodup → (∀ n ∈ names2, ∀ p ∈ d, p.1 ≠ n) →
      names2.foldl addTab2 d =
        d ++ names2.map (fun n => (n, false, true)) := by
  induction names2 with
  | nil =>
    intro d _ _
    simp
  | cons n ns ih =>
    intro d hnd hdisj
    rw [List.foldl_cons]
    have hany : ¬ (d.any (fun p => p.1 == n) = true) := by
      simp only [List.any_eq_true]
      rintro ⟨p, hp, hpn⟩
      exact hdisj n (by simp) p hp (by simpa using hpn)
    have haddeq : addTab2 d n = d ++ [(n, false, true)] := by
      unfold addTab2
      rw [if_neg hany]
    rw [haddeq, ih _ hnd.of_cons]
    · simp
    · intro m hm p hp
      rcases List.mem_append.mp hp with hpd | hpn
      · exact hdisj m (List.mem_cons_of_mem _ hm) p hpd
      · simp only [List.mem_singleton] at hpn
        subst hpn
        intro he
        have he' : n = m := he
        exact (List.nodup_cons.mp hnd).1 (he' ▸ hm)

lemma foldl_addTab1_map_fst (names1 : List String) :
    ∀ (d : List (String × Bool × Bool)), names1.Nodup →
      (names1.foldl addTab1 d).map (fun p => p.1) =
        d.map (fun p => p.1) ++
          names1.filter
            (fun n => decide (¬ n ∈ d.map (fun p => p.1))) := by
  induction names1 with
  | nil =>
    intro d _
    simp
  | cons n ns ih =>
    intro d hnd
    rw [List.foldl_cons]
    by_cases hany : d.any (fun p => p.1 == n) = true
    · have hmem : n ∈ d.map (fun p => p.1) := by
        obtain ⟨p, hp, hpn⟩ := List.any_eq_true.mp hany
        exact List.mem_map.mpr ⟨p, hp, by simpa using hpn⟩
      have hupd : (addTab1 d n).map (fun p => p.1) =
          d.map (fun p => p.1) := by
        unfold addTab1
        rw [if_pos hany, List.map_map]
        apply List.map_congr_left
        intro p hp
        by_cases hpn : p.1 = n
        · simp [hpn]
        · simp [hpn]
      rw [ih _ hnd.of_cons, hupd,
        List.filter_cons_of_neg (by simp [hmem])]
    · have haddeq : addTab1 d n = d ++ [(n, true, false)] := by
        unfold addTab1
        rw [if_neg hany]
      have hnmem : ¬ n ∈ d.map (fun p => p.1) := by
        intro hmem
        apply hany
        obtain ⟨p, hp, hpn⟩ := List.mem_map.mp hmem
        exact List.any_eq_true.mpr ⟨p, hp, by simp [hpn]⟩
      rw [haddeq, ih _ hnd.of_cons]
      simp only [List.map_append, List.map_cons, List.map_nil]
      rw [List.filter_cons_of_pos (by simp [hnmem])]
      have hfilter : ns.filter
          (fun m => decide (¬ m ∈ (d.map (fun p => p.1) ++ [n]))) =
          ns.filter (fun m => decide (¬ m ∈ d.map (fun p => p.1))) := by
        apply List.filter_congr
        intro m hm
        have hmn : m ≠ n := fun he => (List.nodup_cons.mp hnd).1 (he ▸ hm)
        rw [decide_eq_decide]
        simp [hmn]
      rw [hfilter]
      simp

/-- The key order and key set of `tab_names_dict`: all names of the second
workbook first, in order, then the names only in the first workbook, in
order. -/
lemma tabNamesDict_map_fst (names1 names2 : List String)
    (h1 : names1.Nodup) (h2 : names2.Nodup) :
    (tabNamesDict names1 names2).map (fun p => p.1) =
      names2 ++ names1.filter (fun n => decide (¬ n ∈ names2)) := by
  unfold tabNamesDict
  rw [foldl_addTab2_eq names2 [] h2 (by intro n _ p hp; simp at hp),
    List.nil_append, foldl_addTab1_map_fst names1 _ h1, List.map_map]
  have hfst : ((fun p => p.1) ∘
      (fun (n : String) => (n, false, true))) = id := rfl
  rw [hfst, List.map_id]

/-- The produced content of one output worksheet. -/
inductive TabOut where
  | compared (t : TabRes)
  | clonedAdded (writes : List WriteAct)
  | clonedRemoved (writes : List WriteAct)

/-- Workbook sheet lookup (the dictionary-like `wb[name]` access; the main
loop only looks up names present in the workbook). -/
def wsOf (wb : List (String × Ws)) (n : String) : Ws :=
  match wb.lookup n with
  | some ws => ws
  | none => ⟨1, 1, fun _ _ => none⟩

/-- The main sheet loop (lines 436-450): one output worksheet per
`tab_names_dict` key, in dict order; `{1,2}` sheets are compared cell by
cell with the configured alignments, `{2,}` sheets are cloned as added,
`{1,}` sheets are cloned as removed.  (A `(false, false)` value never
occurs by construction.) -/
def runAll (args : Args) (cfg : Config) (wb1 wb2 : List (String × Ws)) :
    List (String × TabOut) :=
  (tabNamesDict (wb1.map (fun p => p.1)) (wb2.map (fun p => p.1))).map
    (fun e =>
      if e.2.1 = true ∧ e.2.2 = true then
        (e.1, TabOut.compared (compareTab args (wsOf wb1 e.1) (wsOf wb2 e.1)
          (column_ranges cfg e.1 (wsOf wb1 e.1) (wsOf wb2 e.1))
          (row_ranges cfg e.1 (wsOf wb1 e.1) (wsOf wb2 e.1))))
      else if e.2.2 = true then
        (e.1, TabOut.clonedAdded (cloneTab (wsOf wb2 e.1) Fmt.f_added))
      else
        (e.1, TabOut.clonedRemoved (cloneTab (wsOf wb1 e.1) Fmt.f_removed)))

/-! ## Concrete worksheets used in witnesses and counterexamples -/

/-- A worksheet with no cells at all. -/
def wsEmpty : Ws := ⟨0, 0, fun _ _ => none⟩

/-- A worksheet whose single cell (1,1) holds "v". -/
def wsOneCell : Ws :=
  ⟨1, 1, fun r c => if r = 1 ∧ c = 1 then some (String.toList "v")
    else none⟩

/-- A blank one-row/one-column worksheet. -/
def wsOneCol : Ws := ⟨1, 1, fun _ _ => none⟩

/-- A blank one-row/two-column worksheet. -/
def wsTwoCol : Ws := ⟨1, 2, fun _ _ => none⟩

/-! ## Claim C1 -/

/-- C1: Round-trip of the cell text diff.  Concatenating the spans of the
plain (`equal`) and removed (`delete`) runs — including the removed half of
each `replace` — reconstructs `v1` exactly; concatenating the plain and
added spans reconstructs `v2` exactly; and every `replace` opcode
contributes exactly its removed span (from `v1`) immediately followed by
its added span (from `v2`), never interleaved or merged. -/
theorem claim1_roundtrip (v1 v2 : Str) :
    oldText (cellRichText v1 v2) = v1 ∧
    newText (cellRichText v1 v2) = v2 ∧
    ∀ op ∈ getOpcodes v1 v2, op.tag = Tag.replace →
      emitRuns v1 v2 op =
        [Run.removed (slice v1 op.a1 op.a2),
         Run.added (slice v2 op.b1 op.b2)] := by
  refine ⟨?_, ?_, ?_⟩
  · have h := opChain_oldText (getOpcodes_chain v1 v2)
    simpa [cellRichText] using h
  · have h := opChain_newText (getOpcodes_chain v1 v2)
    simpa [cellRichText] using h
  · intro op hop htag
    unfold emitRuns
    rw [htag]

/-- Concrete instance of C1 on the values "cat" and "car". -/
theorem claim1_roundtrip_witness :
    oldText (cellRichText (String.toList "cat") (String.toList "car")) =
      String.toList "cat" ∧
    newText (cellRichText (String.toList "cat") (String.toList "car")) =
      String.toList "car" :=
  ⟨(claim1_roundtrip (String.toList "cat") (String.toList "car")).1,
   (claim1_roundtrip (String.toList "cat") (String.toList "car")).2.1⟩

/-! ## Claim C2 -/

/-- C2: Totality of alignment.  For input lists of lengths n and m, the
entries returned by `compare_2_lists_and_give_indexes_with_enumerator`
reference each index of the first list exactly once and each index of the
second list exactly once; the number of entries plus the number of matched
pairs (entries referencing both inputs) is n + m; and the output indices
are exactly the contiguous range 0..len-1 (stored in descending order by
the insert-at-front loop). -/
theorem claim2_alignment_totality {α : Type} [DecidableEq α]
    (l1 l2 : List α) :
    (∀ i : Nat, i < l1.length →
      (compare2Lists l1 l2).countP
        (fun e => decide (e.2.1 = (i : Int))) = 1) ∧
    (∀ j : Nat, j < l2.length →
      (compare2Lists l1 l2).countP
        (fun e => decide (e.2.2 = (j : Int))) = 1) ∧
    (compare2Lists l1 l2).length +
      (compare2Lists l1 l2).countP (fun e => bothIdx e.2) =
      l1.length + l2.length ∧
    (compare2Lists l1 l2).map (fun e => e.1) =
      (List.range (compare2Lists l1 l2).length).reverse := by
  refine ⟨?_, ?_, ?_, compare2Lists_map_fst l1 l2⟩
  · intro i hi
    have h1 := countP_compare2Lists l1 l2 (fun ab => decide (ab.1 = (i : Int)))
    rw [h1, ← count_filterMap_fst (Int.natCast_nonneg i), alternated_fst,
      pyRange_zero, List.count_map_of_injective _ _
        (fun a b hab => by exact_mod_cast hab) i]
    exact List.count_eq_one_of_mem (List.nodup_range _)
      (List.mem_range.mpr hi)
  · intro j hj
    have h1 := countP_compare2Lists l1 l2 (fun ab => decide (ab.2 = (j : Int)))
    rw [h1, ← count_filterMap_snd (Int.natCast_nonneg j), alternated_snd,
      pyRange_zero, List.count_map_of_injective _ _
        (fun a b hab => by exact_mod_cast hab) j]
    exact List.count_eq_one_of_mem (List.nodup_range _)
      (List.mem_range.mpr hj)
  · have hlen : (compare2Lists l1 l2).length =
        (alternatedIndexes l1 l2).length := by
      unfold compare2Lists
      simp [List.enum_length]
    rw [hlen, countP_compare2Lists l1 l2 bothIdx]
    exact alternated_count l1 l2

/-- Concrete instance of C2 on the lists [0, 1] and [1, 2]. -/
theorem claim2_alignment_totality_witness :
    (0 : Nat) < ([0, 1] : List Nat).length ∧
    (compare2Lists ([0, 1] : List Nat) [1, 2]).countP
      (fun e => decide (e.2.1 = ((0 : Nat) : Int))) = 1 :=
  ⟨by decide, (claim2_alignment_totality [0, 1] [1, 2]).1 0 (by decide)⟩

/-! ## Claim C6 -/

/-- C6: Monotonic merge.  Reading the alignment entries in increasing
outputIndex order (i.e. the returned list reversed), the output indices are
0, 1, 2, ..., the entries that reference the first input carry strictly
increasing first-input indices, and the entries that reference the second
input carry strictly increasing second-input indices: the order is a single
total merge that never reorders elements within a source. -/
theorem claim6_monotonic_merge {α : Type} [DecidableEq α] (l1 l2 : List α) :
    ((compare2Lists l1 l2).reverse.map (fun e => e.1) =
      List.range (compare2Lists l1 l2).length) ∧
    ((compare2Lists l1 l2).reverse.filterMap
      (fun e => fstIdx e.2)).Pairwise (fun p q => p < q) ∧
    ((compare2Lists l1 l2).reverse.filterMap
      (fun e => sndIdx e.2)).Pairwise (fun p q => p < q) := by
  refine ⟨?_, ?_, ?_⟩
  · have h := compare2Lists_map_fst l1 l2
    rw [List.map_reverse, h, List.reverse_reverse]
  · rw [filterMap_compare2Lists_rev l1 l2 fstIdx, alternated_fst]
    exact pairwise_lt_cast_pyRange 0 l1.length
  · rw [filterMap_compare2Lists_rev l1 l2 sndIdx, alternated_snd]
    exact pairwise_lt_cast_pyRange 0 l2.length

/-- Concrete instance of C6 on the lists [0, 1] and [1, 2]. -/
theorem claim6_monotonic_merge_witness :
    ((compare2Lists ([0, 1] : List Nat) [1, 2]).reverse.filterMap
      (fun e => fstIdx e.2)).Pairwise (fun p q => p < q) :=
  (claim6_monotonic_merge [0, 1] [1, 2]).2.1

/-! ## Claim C10 -/

/-- C10: Unreachable fallback branch.  A `compare_cell` call on
alignment-produced indices (each at least -1) that falls through all the
branches before the character-level diff stage necessarily has all four
indices nonnegative and two nonempty, different values; the opcode sequence
then contains a non-`equal` opcode, so `is_output_rich_string` is set, the
rich-string write is taken (not the plain-write fallback) and the call
returns True. -/
theorem claim10_fallback_unreachable (args : Args) (ws1 ws2 : Ws)
    (oR oC : Nat) (i1r i1c i2r i2c : Int) (modRows modCols : Finset Nat)
    (hb1 : -1 ≤ i1r) (hb2 : -1 ≤ i1c) (hb3 : -1 ≤ i2r) (hb4 : -1 ≤ i2c)
    (hc1 : ¬ (v1of ws1 i1r i1c = [] ∧ v1of ws2 i2r i2c = [] ∧
      0 ≤ i1r ∧ 0 ≤ i1c ∧ 0 ≤ i2r ∧ 0 ≤ i2c))
    (hc2 : ¬ (v1of ws1 i1r i1c = v1of ws2 i2r i2c ∧
      0 ≤ i1r ∧ 0 ≤ i1c ∧ 0 ≤ i2r ∧ 0 ≤ i2c))
    (hc3 : ¬ ((i1c = -1 ∧ i2r = -1) ∨ (i1r = -1 ∧ i2c = -1)))
    (hc4 : ¬ (i1c = -1 ∨ i1r = -1))
    (hc5 : ¬ (i2c = -1 ∨ i2r = -1))
    (hc6 : ¬ v1of ws1 i1r i1c = [])
    (hc7 : ¬ v1of ws2 i2r i2c = []) :
    (0 ≤ i1r ∧ 0 ≤ i1c ∧ 0 ≤ i2r ∧ 0 ≤ i2c) ∧
    v1of ws1 i1r i1c ≠ v1of ws2 i2r i2c ∧
    isRich (v1of ws1 i1r i1c) (v1of ws2 i2r i2c) = true ∧
    (compareCell args ws1 ws2 oR oC i1r i1c i2r i2c
      modRows modCols).changed = true ∧
    ∃ f mr mc,
      compareCell args ws1 ws2 oR oC i1r i1c i2r i2c modRows modCols =
        ⟨[WriteAct.richW oR oC
            (cellRichText (v1of ws1 i1r i1c) (v1of ws2 i2r i2c)) f],
          true, mr, mc⟩ := by
  have hge : 0 ≤ i1r ∧ 0 ≤ i1c ∧ 0 ≤ i2r ∧ 0 ≤ i2c := by omega
  have hne : v1of ws1 i1r i1c ≠ v1of ws2 i2r i2c := fun he => hc2 ⟨he, hge⟩
  have hrich : isRich (v1of ws1 i1r i1c) (v1of ws2 i2r i2c) = true := by
    by_contra hnr
    apply hne
    have hall : ∀ op ∈ getOpcodes (v1of ws1 i1r i1c) (v1of ws2 i2r i2c),
        op.tag = Tag.equal := by
      intro op hop
      by_contra htag
      exact hnr (List.any_eq_true.mpr ⟨op, hop, decide_eq_true htag⟩)
    have h1 := opChain_oldText
      (getOpcodes_chain (v1of ws1 i1r i1c) (v1of ws2 i2r i2c))
    have h2 := opChain_newText
      (getOpcodes_chain (v1of ws1 i1r i1c) (v1of ws2 i2r i2c))
    have h3 := allEqual_oldText_eq_newText
      (v1of ws1 i1r i1c) (v1of ws2 i2r i2c) hall
    have h4 := h1.symm.trans (h3.trans h2)
    simpa using h4
  have hmk : marksCond ws1 ws2 i1r i1c i2r i2c := ⟨hc1, hc2, hc3⟩
  rw [compareCell_modifiedRich args ws1 ws2 oR oC i1r i1c i2r i2c modRows
    modCols hmk hc4 hc5 hc6 hc7 hrich]
  exact ⟨hge, hne, hrich, rfl, ⟨_, _, _, rfl⟩⟩

/-- Input worksheets for the C10 witness: a single cell holding "cat"
resp. "car". -/
def wsCat : Ws :=
  ⟨1, 1, fun r c => if r = 1 ∧ c = 1 then some (String.toList "cat")
    else none⟩

def wsCar : Ws :=
  ⟨1, 1, fun r c => if r = 1 ∧ c = 1 then some (String.toList "car")
    else none⟩

/-- Concrete instance of C10: comparing the "cat" cell to the "car" cell at
aligned indices (0,0)/(0,0) takes the rich branch and reports a change. -/
theorem claim10_fallback_unreachable_witness :
    isRich (v1of wsCat 0 0) (v1of wsCar 0 0) = true ∧
    (compareCell ⟨false, true, false, false⟩ wsCat wsCar 1 1 0 0 0 0
      ∅ ∅).changed = true :=
  ⟨(claim10_fallback_unreachable ⟨false, true, false, false⟩ wsCat wsCar
      1 1 0 0 0 0 ∅ ∅ (by decide) (by decide) (by decide) (by decide)
      (by decide) (by decide) (by decide) (by decide) (by decide)
      (by decide) (by decide)).2.2.1,
   (claim10_fallback_unreachable ⟨false, true, false, false⟩ wsCat wsCar
      1 1 0 0 0 0 ∅ ∅ (by decide) (by decide) (by decide) (by decide)
      (by decide) (by decide) (by decide) (by decide) (by decide)
      (by decide) (by decide)).2.2.2.1⟩

/-! ## Claim C3 -/

/-- C3 counterexample.  The original claim asserts that under positional
alignment, trailing positions beyond the shorter input become alignment
entries whose index into that input is the `-1` placeholder, so their cells
would be classified as structural additions/removals.  In fact the
positional fallback in `column_ranges`/`row_ranges` emits `[i, i, i]` for
every `i` up to the *longer* input's extent: with a 1-column first sheet
and a 2-column second sheet and no configured index rows, the trailing
entry is `(1, 1, 1)` — both input indices present, no entry carries `-1`
anywhere. -/
theorem claim3_counterexample :
    column_ranges ⟨[], []⟩ "t" wsOneCol wsTwoCol =
      [(1, 1, 1), (0, 0, 0)] ∧
    ∀ e ∈ column_ranges ⟨[], []⟩ "t" wsOneCol wsTwoCol,
      ¬ (e.2.1 = -1 ∨ e.2.2 = -1) := by
  constructor
  · decide
  · decide

/-- C3 (amended): Positional fallback.  For every sheet with no designated
index rows (for columns) and no designated index columns (for rows),
columns and rows are aligned 1:1 by position over the range of the longer
input: the emitted output positions are exactly `max(n1, n2)-1 .. 0` in
descending order, and every entry carries the *same* positional index into
both inputs — never the `-1` placeholder — so trailing cells of a size
mismatch are compared as (usually empty-vs-value) cell comparisons, not
flagged as structural additions/removals. -/
theorem claim3_positional_fallback (cfg : Config) (name : String)
    (ws1 ws2 : Ws)
    (hnor : cfg.irowsFor name = none) (hnoc : cfg.icolumnsFor name = none) :
    ((column_ranges cfg name ws1 ws2).map (fun e => e.1) =
      (List.range (max ws1.maxCol ws2.maxCol)).reverse) ∧
    (∀ e ∈ column_ranges cfg name ws1 ws2,
      e.2.1 = (e.1 : Int) ∧ e.2.2 = (e.1 : Int)) ∧
    ((row_ranges cfg name ws1 ws2).map (fun e => e.1) =
      (List.range (max ws1.maxRow ws2.maxRow)).reverse) ∧
    (∀ e ∈ row_ranges cfg name ws1 ws2,
      e.2.1 = (e.1 : Int) ∧ e.2.2 = (e.1 : Int)) := by
  have hcr : column_ranges cfg name ws1 ws2 =
      (List.range (max ws1.maxCol ws2.maxCol)).reverse.map
        (fun (i : Nat) => (i, (i : Int), (i : Int))) := by
    unfold column_ranges
    rw [hnor]
  have hrr : row_ranges cfg name ws1 ws2 =
      (List.range (max ws1.maxRow ws2.maxRow)).reverse.map
        (fun (i : Nat) => (i, (i : Int), (i : Int))) := by
    unfold row_ranges
    rw [hnoc]
  refine ⟨?_, ?_, ?_, ?_⟩
  · rw [hcr, List.map_map]
    have hcomp : ((fun (e : Nat × Int × Int) => e.1) ∘
        (fun (i : Nat) => (i, (i : Int), (i : Int)))) = id := rfl
    rw [hcomp, List.map_id]
  · intro e he
    rw [hcr] at he
    obtain ⟨i, _, rfl⟩ := List.mem_map.mp he
    exact ⟨rfl, rfl⟩
  · rw [hrr, List.map_map]
    have hcomp : ((fun (e : Nat × Int × Int) => e.1) ∘
        (fun (i : Nat) => (i, (i : Int), (i : Int)))) = id := rfl
    rw [hcomp, List.map_id]
  · intro e he
    rw [hrr] at he
    obtain ⟨i, _, rfl⟩ := List.mem_map.mp he
    exact ⟨rfl, rfl⟩

/-- Concrete instance of the amended C3 on a 1-column vs 2-column sheet
pair with an empty configuration. -/
theorem claim3_positional_fallback_witness :
    Config.irowsFor ⟨[], []⟩ "s" = none ∧
    (column_ranges ⟨[], []⟩ "s" wsOneCol wsTwoCol).map (fun e => e.1) =
      (List.range 2).reverse := by
  refine ⟨rfl, ?_⟩
  exact (claim3_positional_fallback ⟨[], []⟩ "s" wsOneCol wsTwoCol rfl
    rfl).1

/-! ## Claim C4 -/

/-- C4: Synthetic cells.  For every output coordinate whose alignment
indices cross an inserted column with a deleted row or vice versa
(`i1_c = -1 ∧ i2_r = -1` or `i1_r = -1 ∧ i2_c = -1`), `compare_cell`
writes the empty value with the unchanged presentation (the do-nothing
`f_equal_cell` format, or its header-touched variant when the coordinate is
a header of an already-touched row/column), returns `False`, and leaves
both touched sets exactly as they were. -/
theorem claim4_synthetic_cells (args : Args) (ws1 ws2 : Ws) (oR oC : Nat)
    (i1r i1c i2r i2c : Int) (modRows modCols : Finset Nat)
    (hcross : (i1c = -1 ∧ i2r = -1) ∨ (i1r = -1 ∧ i2c = -1)) :
    compareCell args ws1 ws2 oR oC i1r i1c i2r i2c modRows modCols =
      ⟨[WriteAct.plainW oR oC []
          (if (oC = 0 ∧ oR ∈ modRows) ∨ (oR = 0 ∧ oC ∈ modCols) then
            Fmt.f_equal_cell_modified else Fmt.f_equal_cell)],
        false, modRows, modCols⟩ := by
  have hc1 : ¬ (v1of ws1 i1r i1c = [] ∧ v1of ws2 i2r i2c = [] ∧
      0 ≤ i1r ∧ 0 ≤ i1c ∧ 0 ≤ i2r ∧ 0 ≤ i2c) := by
    rintro ⟨_, _, h3, h4, h5, h6⟩
    rcases hcross with ⟨ha, hb⟩ | ⟨ha, hb⟩ <;> omega
  have hc2 : ¬ (v1of ws1 i1r i1c = v1of ws2 i2r i2c ∧
      0 ≤ i1r ∧ 0 ≤ i1c ∧ 0 ≤ i2r ∧ 0 ≤ i2c) := by
    rintro ⟨_, h3, h4, h5, h6⟩
    rcases hcross with ⟨ha, hb⟩ | ⟨ha, hb⟩ <;> omega
  exact compareCell_synthetic args ws1 ws2 oR oC i1r i1c i2r i2c modRows
    modCols hc1 hc2 hcross

/-- Concrete instance of C4 at output coordinate (2,3) with an added
column crossing a removed row. -/
theorem claim4_synthetic_cells_witness :
    compareCell ⟨true, true, false, false⟩ wsEmpty wsEmpty 2 3 0 (-1) (-1)
      0 ∅ ∅ =
      ⟨[WriteAct.plainW 2 3 [] Fmt.f_equal_cell], false, ∅, ∅⟩ := by
  rw [claim4_synthetic_cells ⟨true, true, false, false⟩ wsEmpty wsEmpty 2 3
    0 (-1) (-1) 0 ∅ ∅ (Or.inl ⟨rfl, rfl⟩)]
  simp

/-! ## Claim C5 -/

/-- C5 counterexample.  The original claim asserts that when `-X` /
`--no_highlight_added_removed` is passed, structurally added/removed
non-header cells get the dedicated `f_added_cell_highlight` /
`f_removed_cell_highlight` styles.  The option is declared with
`action="store_false"`, so passing `-X` sets the attribute to `False`: a
structurally added non-header cell is then written with the plain
`f_added` format — not `f_added_cell_highlight` — and the dedicated
highlight is used precisely when `-X` is *not* passed. -/
theorem claim5_counterexample :
    (compareCell ⟨false, false, false, false⟩ wsEmpty wsOneCell 1 1 0 (-1)
      0 0 ∅ ∅).writes =
      [WriteAct.plainW 1 1 (String.toList "v") Fmt.f_added] ∧
    Fmt.f_added ≠ Fmt.f_added_cell_highlight := by
  constructor
  · decide
  · decide

/-- C5 (amended): Suppress-structural-highlight mode.  Because `-X` /
`--no_highlight_added_removed` is declared with `action="store_false"`
(default `True`, set to `False` by passing the flag), a non-header cell of
a structurally added (resp. removed) row/column is written with the
dedicated `f_added_cell_highlight` (resp. `f_removed_cell_highlight`)
style exactly when `-X` is *not* passed, and with the plain `f_added`
(resp. `f_removed`) style when `-X` is passed; both dedicated styles are
distinct from the value-change style `f_modified_cell`. -/
theorem claim5_structural_style (args : Args) (ws1 ws2 : Ws) (oR oC : Nat)
    (i1r i1c i2r i2c : Int) (modRows modCols : Finset Nat)
    (hm : marksCond ws1 ws2 i1r i1c i2r i2c)
    (hr : oR ≠ 0) (hcol : oC ≠ 0) :
    ((i1c = -1 ∨ i1r = -1) →
      (compareCell args ws1 ws2 oR oC i1r i1c i2r i2c modRows
        modCols).writes =
        [WriteAct.plainW oR oC (v1of ws2 i2r i2c)
          (if args.no_highlight_added_removed = true then
            Fmt.f_added_cell_highlight else Fmt.f_added)]) ∧
    (¬ (i1c = -1 ∨ i1r = -1) → (i2c = -1 ∨ i2r = -1) →
      (compareCell args ws1 ws2 oR oC i1r i1c i2r i2c modRows
        modCols).writes =
        [WriteAct.plainW oR oC (v1of ws1 i1r i1c)
          (if args.no_highlight_added_removed = true then
            Fmt.f_removed_cell_highlight else Fmt.f_removed)]) ∧
    Fmt.f_added_cell_highlight ≠ Fmt.f_modified_cell ∧
    Fmt.f_removed_cell_highlight ≠ Fmt.f_modified_cell := by
  have hhead : ¬ ((oC = 0 ∧ oR ∈ (if args.highlight = true then
        insert oR modRows else modRows)) ∨
      (oR = 0 ∧ oC ∈ (if args.highlight = true then
        insert oC modCols else modCols))) := by
    rintro (⟨h, _⟩ | ⟨h, _⟩)
    · exact hcol h
    · exact hr h
  refine ⟨?_, ?_, by decide, by decide⟩
  · intro hc4
    rw [compareCell_addedStructural args ws1 ws2 oR oC i1r i1c i2r i2c
      modRows modCols hm hc4, if_neg hhead]
  · intro hc4 hc5
    rw [compareCell_removedStructural args ws1 ws2 oR oC i1r i1c i2r i2c
      modRows modCols hm hc4 hc5, if_neg hhead]

/-- Concrete instance of the amended C5: with `-X` not passed (attribute
`True`), a structurally added non-header cell gets the dedicated
`f_added_cell_highlight` format. -/
theorem claim5_structural_style_witness :
    marksCond wsEmpty wsOneCell 0 (-1) 0 0 ∧
    (compareCell ⟨false, true, false, false⟩ wsEmpty wsOneCell 1 1 0 (-1)
      0 0 ∅ ∅).writes =
      [WriteAct.plainW 1 1 (String.toList "v")
        Fmt.f_added_cell_highlight] := by
  have hm : marksCond wsEmpty wsOneCell 0 (-1) 0 0 := by
    refine ⟨?_, ?_, ?_⟩ <;> decide
  refine ⟨hm, ?_⟩
  have h := (claim5_structural_style ⟨false, true, false, false⟩ wsEmpty
    wsOneCell 1 1 0 (-1) 0 0 ∅ ∅ hm (by decide) (by decide)).1
    (Or.inl rfl)
  rw [h]
  decide

/-! ## Claims C8 and C9 -/

/-- The main loop emits exactly one output sheet per `tab_names_dict` key,
keeping the key: the output sheet names are the dict keys in dict order,
whatever the branch taken. -/
lemma runAll_map_fst (args : Args) (cfg : Config)
    (wb1 wb2 : List (String × Ws)) :
    (runAll args cfg wb1 wb2).map (fun p => p.1) =
      (tabNamesDict (wb1.map (fun p => p.1))
        (wb2.map (fun p => p.1))).map (fun p => p.1) := by
  unfold runAll
  rw [List.map_map]
  apply List.map_congr_left
  intro e he
  simp only [Function.comp_apply]
  split_ifs <;> rfl

/-- C8: Sheet processing order.  The output sheets produced by the main
loop are exactly one per `tab_names_dict` key, in dict order: first every
sheet name of the second (B) workbook in B's sheet order, then the sheet
names present only in the first (A) workbook, appended in A's order. -/
theorem claim8_sheet_order (args : Args) (cfg : Config)
    (wb1 wb2 : List (String × Ws))
    (h1 : (wb1.map (fun p => p.1)).Nodup)
    (h2 : (wb2.map (fun p => p.1)).Nodup) :
    (runAll args cfg wb1 wb2).map (fun p => p.1) =
      wb2.map (fun p => p.1) ++
        (wb1.map (fun p => p.1)).filter
          (fun n => decide (¬ n ∈ wb2.map (fun p => p.1))) := by
  rw [runAll_map_fst, tabNamesDict_map_fst _ _ h1 h2]

/-- Concrete instance of C8: sheets a, b versus b, c come out as
b, c, a. -/
theorem claim8_sheet_order_witness :
    (runAll ⟨false, true, false, false⟩ ⟨[], []⟩
      [("a", wsOneCol), ("b", wsOneCol)]
      [("b", wsOneCol), ("c", wsOneCol)]).map (fun p => p.1) =
      ["b", "c", "a"] := by
  rw [claim8_sheet_order ⟨false, true, false, false⟩ ⟨[], []⟩
    [("a", wsOneCol), ("b", wsOneCol)] [("b", wsOneCol), ("c", wsOneCol)]
    (by decide) (by decide)]
  decide

/-- C9: Configuration warnings are non-fatal.  A configured index-column or
index-row entry naming a sheet present in neither workbook is reported by
the warning scan; the main loop nevertheless still emits one output sheet
per `tab_names_dict` key (the configuration never removes a sheet from
processing); and any sheet with no index-column configuration entry falls
back to positional row alignment. -/
theorem claim9_warnings_nonfatal (args : Args) (cfg : Config)
    (wb1 wb2 : List (String × Ws)) (w : String)
    (h1 : (wb1.map (fun p => p.1)).Nodup)
    (h2 : (wb2.map (fun p => p.1)).Nodup)
    (hwcfg : w ∈ cfg.icolumns.map (fun p => p.1) ++
      cfg.irows.map (fun p => p.1))
    (hn1 : ¬ w ∈ wb1.map (fun p => p.1))
    (hn2 : ¬ w ∈ wb2.map (fun p => p.1)) :
    w ∈ configWarnings cfg (wb1.map (fun p => p.1))
      (wb2.map (fun p => p.1)) ∧
    (runAll args cfg wb1 wb2).map (fun p => p.1) =
      (tabNamesDict (wb1.map (fun p => p.1))
        (wb2.map (fun p => p.1))).map (fun p => p.1) ∧
    (∀ (name : String) (ws1 ws2 : Ws), cfg.icolumnsFor name = none →
      row_ranges cfg name ws1 ws2 =
        (List.range (max ws1.maxRow ws2.maxRow)).reverse.map
          (fun (i : Nat) => (i, (i : Int), (i : Int)))) := by
  refine ⟨?_, runAll_map_fst args cfg wb1 wb2, ?_⟩
  · unfold configWarnings
    rw [List.mem_filter]
    refine ⟨hwcfg, ?_⟩
    rw [Bool.not_eq_true', List.any_eq_false]
    intro p hp
    simp only [beq_iff_eq]
    intro hpw
    have hkey : p.1 ∈ (tabNamesDict (wb1.map (fun p => p.1))
        (wb2.map (fun p => p.1))).map (fun p => p.1) :=
      List.mem_map_of_mem _ hp
    rw [tabNamesDict_map_fst _ _ h1 h2, hpw] at hkey
    rcases List.mem_append.mp hkey with hk | hk
    · exact hn2 hk
    · exact hn1 (List.mem_filter.mp hk).1
  · intro name ws1 ws2 hnone
    unfold row_ranges
    rw [hnone]

/-- Concrete instance of C9: the configured sheet name "zz" exists in
neither workbook and is reported by the warning scan. -/
theorem claim9_warnings_nonfatal_witness :
    "zz" ∈ configWarnings ⟨[("zz", [1])], []⟩
      ([("a", wsOneCol)].map (fun p => p.1))
      ([("b", wsTwoCol)].map (fun p => p.1)) :=
  (claim9_warnings_nonfatal ⟨false, true, false, false⟩ ⟨[("zz", [1])], []⟩
    [("a", wsOneCol)] [("b", wsTwoCol)] "zz" (by decide) (by decide)
    (by decide) (by decide) (by decide)).1

/-! ## Claim C7: machinery -/

/-- A range list whose output indexes are `n-1 .. 0` (as both
`column_ranges` and `row_ranges` produce) ends with its index-0 entry, and
no earlier entry has output index 0. -/
lemma range_reverse_split (l : List (Nat × Int × Int)) (n : Nat)
    (hl : l.map (fun e => e.1) = (List.range n).reverse) (hne : l ≠ []) :
    l.dropLast ++ [l.getLast hne] = l ∧
    (l.getLast hne).1 = 0 ∧
    (∀ e ∈ l.dropLast, e.1 ≠ 0) := by
  refine ⟨List.dropLast_append_getLast hne, ?_, ?_⟩
  all_goals {
    have hnz : n ≠ 0 := by
      intro h0
      subst h0
      rw [List.range_zero, List.reverse_nil, List.map_eq_nil] at hl
      exact hne hl
    obtain ⟨m, rfl⟩ := Nat.exists_eq_succ_of_ne_zero hnz
    have hsplit := List.dropLast_append_getLast hne
    have hmap : l.dropLast.map (fun e => e.1) ++ [(l.getLast hne).1] =
        l.map (fun e => e.1) := by
      conv_rhs => rw [← hsplit]
      rw [List.map_append, List.map_cons, List.map_nil]
    have hl' : l.dropLast.map (fun e => e.1) ++ [(l.getLast hne).1] =
        ((List.range m).map Nat.succ).reverse ++ [0] := by
      rw [hmap, hl, List.range_succ_eq_map, List.reverse_cons]
    have hinj := List.append_inj' hl' (by simp)
    first
    | (have h0 : [(l.getLast hne).1] = [0] := hinj.2
       simpa using h0)
    | (intro e he hez
       have hmem : e.1 ∈ l.dropLast.map (fun x => x.1) :=
         List.mem_map_of_mem _ he
       rw [hinj.1, List.mem_reverse, List.mem_map] at hmem
       obtain ⟨k, _, hk⟩ := hmem
       omega)
  }

/-- Invariant carried across the column fold of `compare_tab`: a write
already emitted at output row 0 and a nonzero output column carries the
format of its column entry's cell class, upgraded to the touched variant
exactly when its output column is in the modified-columns set `S`. -/
def HdrColOk (args : Args) (ws1 ws2 : Ws)
    (colOK : Nat × Int × Int → Prop) (rE0 : Nat × Int × Int)
    (w : WriteAct) (S : Finset Nat) : Prop :=
  ∃ cE, colOK cE ∧ cE.1 = w.colOf ∧
    w.fmtOf =
      (if w.colOf ∈ S then
        touchedFmt (classifyCell ws1 ws2 rE0.2.1 cE.2.1 rE0.2.2 cE.2.2)
      else
        plainFmt args (classifyCell ws1 ws2 rE0.2.1 cE.2.1 rE0.2.2 cE.2.2))

/-- The column fold preserves `HdrColOk` for every row-0 write: each
column's row-0 cell is processed last in that column (the row list ends
with the index-0 row entry), so at that moment the column's membership in
the modified-columns set is final — no later column re-inserts it when the
output column indexes are distinct. -/
lemma foldl_colStep_hdrCol (args : Args) (ws1 ws2 : Ws)
    (colOK : Nat × Int × Int → Prop)
    (rowA : List (Nat × Int × Int)) (rE0 : Nat × Int × Int)
    (hr0 : rE0.1 = 0) (hrA : ∀ rE ∈ rowA, rE.1 ≠ 0) :
    ∀ (cols : List (Nat × Int × Int)) (st : TabRes),
      (cols.map (fun e => e.1)).Nodup →
      (∀ cE ∈ cols, colOK cE) →
      (∀ w ∈ st.writes, w.rowOf = 0 → w.colOf ≠ 0 →
        ¬ w.colOf ∈ cols.map (fun e => e.1)) →
      (∀ w ∈ st.writes, w.rowOf = 0 → w.colOf ≠ 0 →
        HdrColOk args ws1 ws2 colOK rE0 w st.modCols) →
      ∀ w ∈ (cols.foldl (colStep args ws1 ws2 (rowA ++ [rE0])) st).writes,
        w.rowOf = 0 → w.colOf ≠ 0 →
        HdrColOk args ws1 ws2 colOK rE0 w
          (cols.foldl (colStep args ws1 ws2 (rowA ++ [rE0])) st).modCols := by
  intro cols
  induction cols with
  | nil =>
    intro st _ _ _ hfmt w hw hr hc
    exact hfmt w hw hr hc
  | cons cE cols ih =>
    intro st hnd hok hdisj hfmt
    rw [List.foldl_cons]
    have hnd' := hnd
    rw [List.map_cons, List.nodup_cons] at hnd'
    obtain ⟨hcE1, hndtl⟩ := hnd'
    have hsplit : colStep args ws1 ws2 (rowA ++ [rE0]) st cE =
        rowStep args ws1 ws2 cE
          (rowA.foldl (rowStep args ws1 ws2 cE) st) rE0 := by
      unfold colStep
      rw [List.foldl_append, List.foldl_cons, List.foldl_nil]
    have hmemSt : ∀ x : Nat, x ≠ cE.1 →
        (x ∈ (colStep args ws1 ws2 (rowA ++ [rE0]) st cE).modCols ↔
          x ∈ st.modCols) := by
      intro x hx
      unfold colStep
      rw [foldl_rowStep_modCols_mem]
      constructor
      · rintro (h | ⟨_, hxe, _⟩)
        · exact h
        · exact absurd hxe hx
      · exact fun h => Or.inl h
    have hwmem : ∀ w ∈ (colStep args ws1 ws2 (rowA ++ [rE0]) st cE).writes,
        w ∈ st.writes ∨
          w ∈ (compareCell args ws1 ws2 rE0.1 cE.1 rE0.2.1 cE.2.1 rE0.2.2
            cE.2.2 (rowA.foldl (rowStep args ws1 ws2 cE) st).modRows
            (rowA.foldl (rowStep args ws1 ws2 cE) st).modCols).writes ∨
          (∃ rE ∈ rowA, w.rowOf = rE.1) := by
      intro w hw
      rw [hsplit, rowStep_writes] at hw
      rcases List.mem_append.mp hw with h1 | h1
      · rcases foldl_rowStep_writes_mem args ws1 ws2 cE rowA st w h1 with
          h2 | h2
        · exact Or.inl h2
        · exact Or.inr (Or.inr h2.2)
      · exact Or.inr (Or.inl h1)
    have hd' : ∀ w ∈ (colStep args ws1 ws2 (rowA ++ [rE0]) st cE).writes,
        w.rowOf = 0 → w.colOf ≠ 0 →
        ¬ w.colOf ∈ cols.map (fun e => e.1) := by
      intro w hw hr hc
      rcases hwmem w hw with h | h | h
      · intro hmem
        exact hdisj w h hr hc
          (by rw [List.map_cons]; exact List.mem_cons_of_mem _ hmem)
      · have hspec := (compareCell_spec args ws1 ws2 rE0.1 cE.1 rE0.2.1
          cE.2.1 rE0.2.2 cE.2.2 _ _).2.2 w h
        rw [hspec.2.1]
        exact hcE1
      · obtain ⟨rE, hrE, hre⟩ := h
        have h0 : rE.1 = 0 := by omega
        exact absurd h0 (hrA rE hrE)
    have hf' : ∀ w ∈ (colStep args ws1 ws2 (rowA ++ [rE0]) st cE).writes,
        w.rowOf = 0 → w.colOf ≠ 0 →
        HdrColOk args ws1 ws2 colOK rE0 w
          (colStep args ws1 ws2 (rowA ++ [rE0]) st cE).modCols := by
      intro w hw hr hc
      rcases hwmem w hw with h | h | h
      · obtain ⟨cE', hok', he', hfw⟩ := hfmt w h hr hc
        refine ⟨cE', hok', he', ?_⟩
        rw [hfw]
        have hx : w.colOf ≠ cE.1 := by
          intro hx
          exact hdisj w h hr hc
            (by rw [List.map_cons, hx]; exact List.mem_cons_self _ _)
        exact (if_congr (hmemSt w.colOf hx) rfl rfl).symm
      · have hspec := (compareCell_spec args ws1 ws2 rE0.1 cE.1 rE0.2.1
          cE.2.1 rE0.2.2 cE.2.2
          (rowA.foldl (rowStep args ws1 ws2 cE) st).modRows
          (rowA.foldl (rowStep args ws1 ws2 cE) st).modCols).2.2 w h
        have hcol : w.colOf = cE.1 := hspec.2.1
        refine ⟨cE, hok cE (List.mem_cons_self _ _), hcol.symm, ?_⟩
        rw [hspec.2.2]
        have hmc : (colStep args ws1 ws2 (rowA ++ [rE0]) st cE).modCols =
            (compareCell args ws1 ws2 rE0.1 cE.1 rE0.2.1 cE.2.1 rE0.2.2
              cE.2.2 (rowA.foldl (rowStep args ws1 ws2 cE) st).modRows
              (rowA.foldl (rowStep args ws1 ws2 cE) st).modCols).modCols :=
          by rw [hsplit]; rfl
        refine if_congr ?_ rfl rfl
        constructor
        · rintro (⟨h0, _⟩ | ⟨_, hm⟩)
          · rw [hcol] at hc
            exact absurd h0 hc
          · rw [hcol, hmc]
            exact hm
        · intro hm
          right
          refine ⟨hr0, ?_⟩
          rw [← hmc, ← hcol]
          exact hm
      · obtain ⟨rE, hrE, hre⟩ := h
        have h0 : rE.1 = 0 := by omega
        exact absurd h0 (hrA rE hrE)
    exact ih (colStep args ws1 ws2 (rowA ++ [rE0]) st cE) hndtl
      (fun c hcm => hok c (List.mem_cons_of_mem _ hcm)) hd' hf'

/-- Invariant carried across the row fold of a single `compare_tab` column:
a write already emitted at output column 0 and a nonzero output row carries
the format of its row entry's cell class, upgraded to the touched variant
exactly when its output row is in the modified-rows set `S`. -/
def HdrRowOk (args : Args) (ws1 ws2 : Ws)
    (rowOK : Nat × Int × Int → Prop) (cE0 : Nat × Int × Int)
    (w : WriteAct) (S : Finset Nat) : Prop :=
  ∃ rE, rowOK rE ∧ rE.1 = w.rowOf ∧
    w.fmtOf =
      (if w.rowOf ∈ S then
        touchedFmt (classifyCell ws1 ws2 rE.2.1 cE0.2.1 rE.2.2 cE0.2.2)
      else
        plainFmt args (classifyCell ws1 ws2 rE.2.1 cE0.2.1 rE.2.2 cE0.2.2))

/-- The row fold of the index-0 column preserves `HdrRowOk`: once the cell
of some output row is written in that column (its own set update included),
no later row entry re-inserts that row when the output row indexes are
distinct. -/
lemma foldl_rowStep_hdrRow (args : Args) (ws1 ws2 : Ws)
    (rowOK : Nat × Int × Int → Prop) (cE0 : Nat × Int × Int)
    (hc0 : cE0.1 = 0) :
    ∀ (rows : List (Nat × Int × Int)) (st : TabRes),
      (rows.map (fun e => e.1)).Nodup →
      (∀ rE ∈ rows, rowOK rE) →
      (∀ w ∈ st.writes, w.colOf = 0 → w.rowOf ≠ 0 →
        ¬ w.rowOf ∈ rows.map (fun e => e.1)) →
      (∀ w ∈ st.writes, w.colOf = 0 → w.rowOf ≠ 0 →
        HdrRowOk args ws1 ws2 rowOK cE0 w st.modRows) →
      ∀ w ∈ (rows.foldl (rowStep args ws1 ws2 cE0) st).writes,
        w.colOf = 0 → w.rowOf ≠ 0 →
        HdrRowOk args ws1 ws2 rowOK cE0 w
          (rows.foldl (rowStep args ws1 ws2 cE0) st).modRows := by
  intro rows
  induction rows with
  | nil =>
    intro st _ _ _ hfmt w hw hcz hrz
    exact hfmt w hw hcz hrz
  | cons rE rows ih =>
    intro st hnd hok hdisj hfmt
    rw [List.foldl_cons]
    have hnd' := hnd
    rw [List.map_cons, List.nodup_cons] at hnd'
    obtain ⟨hrE1, hndtl⟩ := hnd'
    have hmemSt : ∀ x : Nat, x ≠ rE.1 →
        (x ∈ (rowStep args ws1 ws2 cE0 st rE).modRows ↔
          x ∈ st.modRows) := by
      intro x hx
      rw [rowStep_modRows]
      by_cases h1 : args.highlight = true ∧ marksPair ws1 ws2 rE cE0
      · rw [if_pos h1, Finset.mem_insert]
        constructor
        · rintro (h | h)
          · exact absurd h hx
          · exact h
        · exact fun h => Or.inr h
      · rw [if_neg h1]
    have hd' : ∀ w ∈ (rowStep args ws1 ws2 cE0 st rE).writes,
        w.colOf = 0 → w.rowOf ≠ 0 →
        ¬ w.rowOf ∈ rows.map (fun e => e.1) := by
      intro w hw hcz hrz
      rw [rowStep_writes] at hw
      rcases List.mem_append.mp hw with h | h
      · intro hmem
        exact hdisj w h hcz hrz
          (by rw [List.map_cons]; exact List.mem_cons_of_mem _ hmem)
      · have hspec := (compareCell_spec args ws1 ws2 rE.1 cE0.1 rE.2.1
          cE0.2.1 rE.2.2 cE0.2.2 st.modRows st.modCols).2.2 w h
        rw [hspec.1]
        exact hrE1
    have hf' : ∀ w ∈ (rowStep args ws1 ws2 cE0 st rE).writes,
        w.colOf = 0 → w.rowOf ≠ 0 →
        HdrRowOk args ws1 ws2 rowOK cE0 w
          (rowStep args ws1 ws2 cE0 st rE).modRows := by
      intro w hw hcz hrz
      rw [rowStep_writes] at hw
      rcases List.mem_append.mp hw with h | h
      · obtain ⟨rE', hok', he', hfw⟩ := hfmt w h hcz hrz
        refine ⟨rE', hok', he', ?_⟩
        rw [hfw]
        have hx : w.rowOf ≠ rE.1 := by
          intro hx
          exact hdisj w h hcz hrz
            (by rw [List.map_cons, hx]; exact List.mem_cons_self _ _)
        exact (if_congr (hmemSt w.rowOf hx) rfl rfl).symm
      · have hspec := (compareCell_spec args ws1 ws2 rE.1 cE0.1 rE.2.1
          cE0.2.1 rE.2.2 cE0.2.2 st.modRows st.modCols).2.2 w h
        have hrow : w.rowOf = rE.1 := hspec.1
        refine ⟨rE, hok rE (List.mem_cons_self _ _), hrow.symm, ?_⟩
        rw [hspec.2.2]
        have hmr : (rowStep args ws1 ws2 cE0 st rE).modRows =
            (compareCell args ws1 ws2 rE.1 cE0.1 rE.2.1 cE0.2.1 rE.2.2
              cE0.2.2 st.modRows st.modCols).modRows := rfl
        refine if_congr ?_ rfl rfl
        constructor
        · rintro (⟨_, hm⟩ | ⟨h0, _⟩)
          · rw [hrow, hmr]
            exact hm
          · rw [hrow] at hrz
            exact absurd h0 hrz
        · intro hm
          left
          refine ⟨hc0, ?_⟩
          rw [← hmr, ← hrow]
          exact hm
    exact ih (rowStep args ws1 ws2 cE0 st rE) hndtl
      (fun r hr => hok r (List.mem_cons_of_mem _ hr)) hd' hf'

/-- C7: Header-touched highlighting.  With header highlighting enabled
(`-x`), over ranges whose output indexes run `n-1 .. 0` (as
`column_ranges`/`row_ranges` produce, so the row-0/column-0 cells are
written after every cell that can mark them): every write at output row 0
and a nonzero output column carries its own cell class's format, upgraded
to the combined touched variant (`touchedFmt`, e.g. added-and-touched
`f_added_cell_modified`) exactly when *some* cell of that column pair
marks the sets — the highlight reflects all changes of the column; and
symmetrically every write at output column 0 and a nonzero output row is
upgraded exactly when some cell of that row pair marks the sets. -/
theorem claim7_header_touched (args : Args) (ws1 ws2 : Ws)
    (colR rowR : List (Nat × Int × Int)) (nC nR : Nat)
    (hhl : args.highlight = true)
    (hcols : colR.map (fun e => e.1) = (List.range nC).reverse)
    (hrows : rowR.map (fun e => e.1) = (List.range nR).reverse) :
    ∀ w ∈ (compareTab args ws1 ws2 colR rowR).writes,
      (w.rowOf = 0 → w.colOf ≠ 0 →
        ∃ cE ∈ colR, cE.1 = w.colOf ∧ ∃ rE0 ∈ rowR, rE0.1 = 0 ∧
          w.fmtOf =
            (if ∃ rE ∈ rowR, marksPair ws1 ws2 rE cE then
              touchedFmt (classifyCell ws1 ws2 rE0.2.1 cE.2.1 rE0.2.2
                cE.2.2)
            else plainFmt args (classifyCell ws1 ws2 rE0.2.1 cE.2.1
              rE0.2.2 cE.2.2))) ∧
      (w.colOf = 0 → w.rowOf ≠ 0 →
        ∃ rE ∈ rowR, rE.1 = w.rowOf ∧ ∃ cE0 ∈ colR, cE0.1 = 0 ∧
          w.fmtOf =
            (if ∃ cE ∈ colR, marksPair ws1 ws2 rE cE then
              touchedFmt (classifyCell ws1 ws2 rE.2.1 cE0.2.1 rE.2.2
                cE0.2.2)
            else plainFmt args (classifyCell ws1 ws2 rE.2.1 cE0.2.1
              rE.2.2 cE0.2.2))) := by
  intro w hw
  have hW := foldl_colStep_writes_mem args ws1 ws2 rowR colR
    ⟨[], false, ∅, ∅⟩ w hw
  rcases hW with h | ⟨cEx, hcEx, _, rEx, hrEx, _⟩
  · exact absurd h (List.not_mem_nil w)
  have hrne : rowR ≠ [] := by
    intro h
    subst h
    exact (List.not_mem_nil rEx) hrEx
  have hcne : colR ≠ [] := by
    intro h
    subst h
    exact (List.not_mem_nil cEx) hcEx
  obtain ⟨hrsplit, hr0, hrA⟩ := range_reverse_split rowR nR hrows hrne
  obtain ⟨hcsplit, hc0, hcA⟩ := range_reverse_split colR nC hcols hcne
  have hndr : (rowR.map (fun e => e.1)).Nodup := by
    rw [hrows]
    exact List.nodup_reverse.mpr (List.nodup_range nR)
  have hndc : (colR.map (fun e => e.1)).Nodup := by
    rw [hcols]
    exact List.nodup_reverse.mpr (List.nodup_range nC)
  constructor
  · intro hwr hwc
    have hA := foldl_colStep_hdrCol args ws1 ws2 (fun cE => cE ∈ colR)
      rowR.dropLast (rowR.getLast hrne) hr0 hrA colR ⟨[], false, ∅, ∅⟩
      hndc (fun cE hc => hc)
      (fun w' hw' _ _ => absurd hw' (List.not_mem_nil w'))
      (fun w' hw' _ _ => absurd hw' (List.not_mem_nil w'))
    rw [hrsplit] at hA
    obtain ⟨cE, hcE, hce, hfmtw⟩ := hA w hw hwr hwc
    refine ⟨cE, hcE, hce, rowR.getLast hrne, List.getLast_mem hrne, hr0,
      ?_⟩
    rw [hfmtw]
    refine if_congr ?_ rfl rfl
    constructor
    · intro hmem
      rcases (foldl_colStep_modCols_mem args ws1 ws2 rowR colR
          ⟨[], false, ∅, ∅⟩ w.colOf).mp hmem with
        h0 | ⟨_, cE', hcE', hce', rE, hrE, hm⟩
      · exact absurd h0 (Finset.not_mem_empty _)
      · have heq : cE' = cE :=
          List.inj_on_of_nodup_map hndc hcE' hcE (hce'.trans hce.symm)
        exact ⟨rE, hrE, by rwa [heq] at hm⟩
    · rintro ⟨rE, hrE, hm⟩
      exact (foldl_colStep_modCols_mem args ws1 ws2 rowR colR
        ⟨[], false, ∅, ∅⟩ w.colOf).mpr
        (Or.inr ⟨hhl, cE, hcE, hce, rE, hrE, hm⟩)
  · intro hwc hwr
    have hTsplit : compareTab args ws1 ws2 colR rowR =
        rowR.foldl (rowStep args ws1 ws2 (colR.getLast hcne))
          (colR.dropLast.foldl (colStep args ws1 ws2 rowR)
            ⟨[], false, ∅, ∅⟩) := by
      unfold compareTab
      conv_lhs => rw [← hcsplit]
      rw [List.foldl_append, List.foldl_cons, List.foldl_nil]
      rfl
    have hstA : ∀ w' ∈ (colR.dropLast.foldl (colStep args ws1 ws2 rowR)
        ⟨[], false, ∅, ∅⟩).writes, ¬ w'.colOf = 0 := by
      intro w' hw'
      rcases foldl_colStep_writes_mem args ws1 ws2 rowR colR.dropLast
          ⟨[], false, ∅, ∅⟩ w' hw' with h | ⟨cE', hcE', hce', _⟩
      · exact absurd h (List.not_mem_nil w')
      · rw [hce']
        exact hcA cE' hcE'
    have hB := foldl_rowStep_hdrRow args ws1 ws2 (fun rE => rE ∈ rowR)
      (colR.getLast hcne) hc0 rowR
      (colR.dropLast.foldl (colStep args ws1 ws2 rowR) ⟨[], false, ∅, ∅⟩)
      hndr (fun rE hr => hr)
      (fun w' hw' hcz _ => absurd hcz (hstA w' hw'))
      (fun w' hw' hcz _ => absurd hcz (hstA w' hw'))
    rw [← hTsplit] at hB
    obtain ⟨rE, hrE, hre, hfmtw⟩ := hB w hw hwc hwr
    refine ⟨rE, hrE, hre, colR.getLast hcne, List.getLast_mem hcne, hc0,
      ?_⟩
    rw [hfmtw]
    refine if_congr ?_ rfl rfl
    constructor
    · intro hmem
      rcases (foldl_colStep_modRows_mem args ws1 ws2 rowR colR
          ⟨[], false, ∅, ∅⟩ w.rowOf).mp hmem with
        h0 | ⟨_, cE', hcE', rE', hrE', hre', hm⟩
      · exact absurd h0 (Finset.not_mem_empty _)
      · have heq : rE' = rE :=
          List.inj_on_of_nodup_map hndr hrE' hrE (hre'.trans hre.symm)
        exact ⟨cE', hcE', by rwa [heq] at hm⟩
    · rintro ⟨cE', hcE', hm⟩
      exact (foldl_colStep_modRows_mem args ws1 ws2 rowR colR
        ⟨[], false, ∅, ∅⟩ w.rowOf).mpr
        (Or.inr ⟨hhl, cE', hcE', rE, hrE, hre, hm⟩)

/-- A 1x2 worksheet whose only value "v" sits in the second column. -/
def wsVal : Ws :=
  ⟨1, 2, fun r c => if r = 1 ∧ c = 2 then some (String.toList "v")
    else none⟩

/-- Concrete instance of C7: with highlighting on, the row-0 cell of an
output column containing a value addition is written with the combined
added-and-touched format. -/
theorem claim7_header_touched_witness :
    ∃ cE ∈ ([(1, 1, 1), (0, 0, 0)] : List (Nat × Int × Int)),
      cE.1 = (WriteAct.plainW 0 1 (String.toList "v")
        Fmt.f_added_cell_modified).colOf ∧
      ∃ rE0 ∈ ([(0, 0, 0)] : List (Nat × Int × Int)), rE0.1 = 0 ∧
        (WriteAct.plainW 0 1 (String.toList "v")
          Fmt.f_added_cell_modified).fmtOf =
          (if ∃ rE ∈ ([(0, 0, 0)] : List (Nat × Int × Int)),
              marksPair wsTwoCol wsVal rE cE then
            touchedFmt (classifyCell wsTwoCol wsVal rE0.2.1 cE.2.1
              rE0.2.2 cE.2.2)
          else plainFmt ⟨true, true, false, false⟩
            (classifyCell wsTwoCol wsVal rE0.2.1 cE.2.1 rE0.2.2 cE.2.2)) :=
  (claim7_header_touched ⟨true, true, false, false⟩ wsTwoCol wsVal
    [(1, 1, 1), (0, 0, 0)] [(0, 0, 0)] 2 1 rfl (by decide) (by decide)
    (WriteAct.plainW 0 1 (String.toList "v") Fmt.f_added_cell_modified)
    (by decide)).1 rfl (by decide)

end XlsxDiff
